import Mathlib

/-!
Verification development for the `selfdev` increment-lifecycle tracker.

The Python sources (`selfdev/increment_tracker.py`, `selfdev/analyzers.py`)
are shallowly embedded below.  Strings are modelled as `List Char` (the
`data` of a Lean `String`); every concrete regular expression used by the
source is modelled by a dedicated recursive function whose doc comment
names the regex it implements, including its (deterministic) backtracking
behaviour.  Character classes `\d`, `\s`, `\S`, `[A-Z]`, `[A-Za-z0-9_]`
are modelled over ASCII, which covers every character the tracker's
patterns inspect.
-/

set_option maxRecDepth 20000

namespace Selfdev

/-- Strings of the embedded program are lists of characters. -/
abbrev Str := List Char

/-- ASCII whitespace, as matched by Python `\s` / `str.strip()` on the
characters occurring in the tracker's inputs. -/
def isWS (c : Char) : Bool :=
  c = ' ' || c = '\t' || c = '\n' || c = '\r' || c = '\x0b' || c = '\x0c'

/-- Python `str.lstrip()`. -/
def lstripWS (l : Str) : Str := l.dropWhile isWS

/-- Python `str.rstrip()`. -/
def rstripWS (l : Str) : Str := (l.reverse.dropWhile isWS).reverse

/-- Python `str.strip()`. -/
def stripWS (l : Str) : Str := rstripWS (lstripWS l)

/-- `startsWith pat l` : does `l` begin with `pat`?  (Model of an anchored
literal match.) -/
def startsWith : Str → Str → Bool
  | [], _ => true
  | _ :: _, [] => false
  | p :: ps, c :: cs => p = c && startsWith ps cs

/-- Python `pat in s` : leftmost-scan literal substring test. -/
def containsSub (pat : Str) : Str → Bool
  | [] => startsWith pat []
  | c :: cs => startsWith pat (c :: cs) || containsSub pat cs

/-- Python `s.replace(pat, sub, 1)` : replace the leftmost occurrence of
`pat` (if any) by `sub`. -/
def replaceFirst : Str → Str → Str → Str
  | [], pat, sub => if startsWith pat [] then sub else []
  | c :: cs, pat, sub =>
    if startsWith pat (c :: cs) then sub ++ (c :: cs).drop pat.length
    else c :: replaceFirst cs pat sub

/-- Python `str.splitlines()` for `\n`-separated text: no entry is produced
for a trailing newline, and the empty string yields `[]`. -/
def splitlinesAux : Str → Str → List Str
  | [], [] => []
  | [], acc => [acc.reverse]
  | '\n' :: rest, acc => acc.reverse :: splitlinesAux rest []
  | c :: rest, acc => splitlinesAux rest (c :: acc)

/-- Python `str.splitlines()` (for `\n`-separated text). -/
def splitlines (l : Str) : List Str := splitlinesAux l []

/-- Numeric value of one ASCII digit. -/
def digitVal (c : Char) : Nat := c.toNat - 48

/-- Python `int` applied to a non-empty ASCII digit string. -/
def natOfDigits (ds : Str) : Nat := ds.foldl (fun n c => 10 * n + digitVal c) 0

/-- Python `f"{n:04d}"`: decimal digits left-padded with zeros to width 4. -/
def pad4 (n : Nat) : Str :=
  let ds := Nat.toDigits 10 n
  List.replicate (4 - ds.length) '0' ++ ds

/-- Python `str(n)` for a natural number. -/
def natStr (n : Nat) : Str := Nat.toDigits 10 n

/-- The regex class `[-_]` used as separator in increment filenames. -/
def isSep (c : Char) : Bool := c = '-' || c = '_'

/-- Anchored attempt of `increment_(\d+)`: the literal `increment_`
followed by a maximal (greedy) non-empty digit run, which is group 1. -/
def matchIncrementAt (s : Str) : Option Str :=
  if startsWith "increment_".data s then
    let ds := (s.drop 10).takeWhile Char.isDigit
    if ds.isEmpty then none else some ds
  else none

/-- `re.search(r'increment_(\d+)', name)`: leftmost match, returning
group 1 (the digit run). -/
def searchIncrementDigits : Str → Option Str
  | [] => none
  | c :: cs =>
    match matchIncrementAt (c :: cs) with
    | some ds => some ds
    | none => searchIncrementDigits cs

/-- Anchored attempt of `[-_]todo[-_]`. -/
def matchTodoTokAt : Str → Bool
  | a :: 't' :: 'o' :: 'd' :: 'o' :: b :: _ => isSep a && isSep b
  | _ => false

/-- `re.search(r'[-_]todo[-_]', name)` viewed as a Boolean test. -/
def hasTodoTok : Str → Bool
  | [] => false
  | c :: cs => matchTodoTokAt (c :: cs) || hasTodoTok cs

/-- Anchored attempt of `[-_](?:todo|done)[-_](.+)$` (no DOTALL, no
MULTILINE): separator, status word, separator, then group 1 is a greedy
non-empty run of non-newline characters which `$` requires to reach the
end of the string (or to leave exactly one trailing newline). -/
def matchStatusSlugAt : Str → Option Str
  | a :: b :: c :: d :: e :: f :: rest =>
    if isSep a &&
        ((b = 't' && c = 'o' && d = 'd' && e = 'o') ||
         (b = 'd' && c = 'o' && d = 'n' && e = 'e')) &&
        isSep f then
      let g := rest.takeWhile (fun ch => ch ≠ '\n')
      if g.isEmpty then none
      else if rest.drop g.length = [] ∨ rest.drop g.length = ['\n'] then some g
      else none
    else none
  | _ => none

/-- `re.search(r'[-_](?:todo|done)[-_](.+)$', name)`: leftmost match,
returning group 1. -/
def searchShortDesc : Str → Option Str
  | [] => none
  | c :: cs =>
    match matchStatusSlugAt (c :: cs) with
    | some g => some g
    | none => searchShortDesc cs

/-- Python `pathlib.Path.stem`: the name with its final extension removed
(a leading dot alone does not count as an extension). -/
def stemOf (name : Str) : Str :=
  let revName := name.reverse
  let ext := revName.takeWhile (fun ch => ch ≠ '.')
  if ext.length = name.length then name
  else if ext.length + 1 = name.length then name
  else (revName.drop (ext.length + 1)).reverse

/-- `number` extraction of `IncrementTracker.parse_increment`
(increment_tracker.py lines 109-110), applied to the stem. -/
def parseNumber (stem : Str) : Nat :=
  match searchIncrementDigits stem with
  | some ds => natOfDigits ds
  | none => 0

/-- `status` extraction of `IncrementTracker.parse_increment`
(increment_tracker.py line 113). -/
def parseStatus (stem : Str) : Str :=
  if hasTodoTok stem then "todo".data else "done".data

/-- `short_desc` extraction of `IncrementTracker.parse_increment`
(increment_tracker.py lines 116-117). -/
def parseShortDesc (stem : Str) : Str := (searchShortDesc stem).getD []

/-- Spec-side constructor: a filename stem following the naming contract
`increment_<4-digit-number><sep><status><sep><slug>` (spec section 6). -/
def mkStem (d1 d2 d3 d4 : Char) (sep : Char) (status : Str) (slug : Str) : Str :=
  "increment_".data ++ [d1, d2, d3, d4, sep] ++ status ++ [sep] ++ slug

/-! ### Models of the body-parsing regexes of `parse_increment` -/

/-- `upToFirst pat l`: the prefix of `l` before the leftmost occurrence of
the literal `pat` (all of `l` when `pat` does not occur). -/
def upToFirst (pat : Str) : Str → Str
  | [] => []
  | c :: cs => if startsWith pat (c :: cs) then [] else c :: upToFirst pat cs

/-- Anchored attempt of a heading pattern `^#{1,maxH}\s+(.+)$` (MULTILINE)
at a line start.  Returns `(group 1, text after the match)`.  The `#` run
is greedy; `\s+` is greedy but backtracks: when it would consume the rest
of the string, `.+$` instead matches the last non-newline whitespace
character, provided at least one whitespace character precedes it. -/
def matchHeadingAt (maxH : Nat) (s : Str) : Option (Str × Str) :=
  let hs := s.takeWhile (fun c => c = '#')
  if hs.length = 0 || maxH < hs.length then none
  else
    let rest1 := s.drop hs.length
    let w := rest1.takeWhile isWS
    if w.length = 0 then none
    else
      let after := rest1.drop w.length
      match after with
      | [] =>
        let nls := w.reverse.takeWhile (fun c => c = '\n')
        match w.reverse.drop nls.length with
        | [] => none
        | ch :: pre => if pre.isEmpty then none else some ([ch], nls)
      | _ :: _ =>
        let g := after.takeWhile (fun c => c ≠ '\n')
        some (g, after.drop g.length)

/-- Scan helper for `re.search` of a `^`-anchored MULTILINE pattern: try
the matcher after each newline. -/
def searchLinesTail (f : Str → Option α) : Str → Option α
  | [] => none
  | '\n' :: cs =>
    (match f cs with
     | some a => some a
     | none => searchLinesTail f cs)
  | _ :: cs => searchLinesTail f cs

/-- `re.search` of a `^`-anchored MULTILINE pattern: position 0 first,
then after each newline, leftmost first. -/
def searchLines (f : Str → Option α) (l : Str) : Option α :=
  match f l with
  | some a => some a
  | none => searchLinesTail f l

/-- `re.search(r'^#{1,maxH}\s+(.+)$', content, re.MULTILINE)`, returning
`(group 1, text after the match)`. -/
def searchHeading (maxH : Nat) (l : Str) : Option (Str × Str) :=
  searchLines (matchHeadingAt maxH) l

/-- Anchored attempt of `<lit>\s*\n(.*?)(?=\n## |\Z)` (DOTALL), the shape
of the strict section regexes.  `\s*` is greedy and backtracks so that the
literal `\n` consumes the last newline of the whitespace run following
`lit`; the lazy group then extends to the leftmost `"\n## "` (or the end
of the string). -/
def matchSectionAt (lit : Str) (s : Str) : Option Str :=
  if startsWith lit s then
    let rest := s.drop lit.length
    let w := rest.takeWhile isWS
    if w.contains '\n' then
      let nls := w.reverse.takeWhile (fun c => c ≠ '\n')
      some (upToFirst "\n## ".data (rest.drop (w.length - nls.length)))
    else none
  else none

/-- `re.search(r'<lit>\s*\n(.*?)(?=\n## |\Z)', content, re.DOTALL)`:
leftmost match, returning group 1. -/
def sectionAfter (lit : Str) : Str → Option Str
  | [] => none
  | c :: cs =>
    match matchSectionAt lit (c :: cs) with
    | some b => some b
    | none => sectionAfter lit cs

/-- Anchored attempt of `\*\*Requirement ID:\*\*\s*(\S+)`. -/
def matchReqIdAt (s : Str) : Option Str :=
  if startsWith "**Requirement ID:**".data s then
    let rest := (s.drop 19).dropWhile isWS
    let tok := rest.takeWhile (fun c => ¬ isWS c)
    if tok.isEmpty then none else some tok
  else none

/-- `re.search(r'\*\*Requirement ID:\*\*\s*(\S+)', content)`: leftmost
match, returning group 1. -/
def searchReqId : Str → Option Str
  | [] => none
  | c :: cs =>
    match matchReqIdAt (c :: cs) with
    | some t => some t
    | none => searchReqId cs

/-- The regex class `[A-Za-z0-9_]`. -/
def isWordChar (c : Char) : Bool := c.isAlphanum || c = '_'

/-- The `\s*[:—–]\s` tail of the requirement-id heading pattern. -/
def colonTail (s : Str) : Bool :=
  match s.dropWhile isWS with
  | c :: d :: _ => (c = ':' || c = '—' || c = '–') && isWS d
  | _ => false

/-- `re.match(r'([A-Z][A-Za-z0-9_]*(?:-\d+)?)\s*[:—–]\s', title)`
(anchored): a capital, a greedy word run, then an optional `-<digits>`
part which backtracks away again when `\s*[:—–]\s` does not follow it.
Returns group 1. -/
def matchTitleId (title : Str) : Option Str :=
  match title with
  | [] => none
  | c :: rest =>
    if c.isUpper then
      let w := rest.takeWhile isWordChar
      let rest2 := rest.drop w.length
      match rest2 with
      | '-' :: rest3 =>
        let ds := rest3.takeWhile Char.isDigit
        if ds.isEmpty then
          if colonTail rest2 then some (c :: w) else none
        else if colonTail (rest3.drop ds.length) then
          some (c :: (w ++ '-' :: ds))
        else if colonTail rest2 then some (c :: w) else none
      | _ => if colonTail rest2 then some (c :: w) else none
    else none

/-- Anchored attempt of a section marker `\n\*\*<label>[^*]*\*\*`. -/
def matchBoldMarkerAt (label : Str) (s : Str) : Bool :=
  if startsWith ('\n' :: '*' :: '*' :: label) s then
    let rest := s.drop (3 + label.length)
    let run := rest.takeWhile (fun c => c ≠ '*')
    startsWith "**".data (rest.drop run.length)
  else false

/-- Anchored attempt of the section marker `\n---\s*$` (MULTILINE): after
`\n---`, the greedy `\s*` backtracks until `$` holds, i.e. the whitespace
run reaches the end of the string or contains a newline. -/
def matchHrMarkerAt (s : Str) : Bool :=
  if startsWith "\n---".data s then
    let w := (s.drop 4).takeWhile isWS
    ((s.drop 4).drop w.length).isEmpty || w.contains '\n'
  else false

/-- Leftmost start position of an anchored matcher (model of
`re.search(...).start()`). -/
def findMarkerPos (m : Str → Bool) : Str → Option Nat
  | [] => if m [] then some 0 else none
  | c :: cs =>
    if m (c :: cs) then some 0
    else (findMarkerPos m cs).map (· + 1)

/-- `IncrementTracker._SECTION_MARKERS` (increment_tracker.py lines
78-87), in source order, as anchored matchers. -/
def sectionMarkerMatchers : List (Str → Bool) :=
  [ matchBoldMarkerAt "Acceptance Criteria".data,
    fun s => startsWith "\n## Acceptance Criteria".data s,
    matchBoldMarkerAt "Related Principles".data,
    fun s => startsWith "\n## Related Principles".data s,
    matchBoldMarkerAt "Current Inventory".data,
    matchBoldMarkerAt "Screenshot Assets".data,
    matchBoldMarkerAt "Platform Reference".data,
    matchHrMarkerAt ]

/-- The `earliest_pos` loop of the description fallback
(increment_tracker.py lines 199-203). -/
def earliestMarkerPos (remaining : Str) : Nat :=
  sectionMarkerMatchers.foldl
    (fun acc m =>
      match findMarkerPos m remaining with
      | some p => if p < acc then p else acc
      | none => acc)
    remaining.length

/-- The description fallback (increment_tracker.py lines 193-204): body
text between the end of the first heading (any level) and the earliest
section marker, stripped. -/
def flexDescription (content : Str) : Str :=
  match searchHeading 6 content with
  | some (_, remaining) => stripWS (remaining.take (earliestMarkerPos remaining))
  | none => []

/-- Anchored attempt of the lookahead alternative `\n\*\*[A-Z]`. -/
def matchBoldStopAt (s : Str) : Bool :=
  match s with
  | '\n' :: '*' :: '*' :: c :: _ => c.isUpper
  | _ => false

/-- Anchored attempt of the lookahead alternative `\n#{1,6}\s`. -/
def matchHeadingStopAt (s : Str) : Bool :=
  match s with
  | '\n' :: rest =>
    let hs := rest.takeWhile (fun c => c = '#')
    (1 ≤ hs.length && hs.length ≤ 6) &&
      (match rest.drop hs.length with
       | c :: _ => isWS c
       | [] => false)
  | _ => false

/-- Anchored attempt of the lookahead alternative `\n---`. -/
def matchHrStopAt (s : Str) : Bool := startsWith "\n---".data s

/-- The lazy group `(.*?)(?=\n\*\*[A-Z]|\n#{1,6}\s|\n---|\Z)` of the bold
section regexes: everything up to the earliest stop (or the end). -/
def bodyUpToBoldStop : Str → Str
  | [] => []
  | c :: cs =>
    if matchBoldStopAt (c :: cs) || matchHeadingStopAt (c :: cs) ||
        matchHrStopAt (c :: cs) then []
    else c :: bodyUpToBoldStop cs

/-- Anchored attempt of
`\*\*<label>[^*]*\*\*:?\s*\n(.*?)(?=\n\*\*[A-Z]|\n#{1,6}\s|\n---|\Z)`
(DOTALL), the shape of the flexible bold-section regexes.  `:?` consumes a
colon when present (when `\s*\n` then fails, re-trying without the colon
also fails, so no separate branch is needed); `\s*\n` behaves as in
`matchSectionAt`. -/
def matchBoldSectionAt (label : Str) (s : Str) : Option Str :=
  if startsWith ('*' :: '*' :: label) s then
    let rest0 := s.drop (2 + label.length)
    let run := rest0.takeWhile (fun c => c ≠ '*')
    if startsWith "**".data (rest0.drop run.length) then
      let rest1 := rest0.drop (run.length + 2)
      let rest2 := match rest1 with
        | ':' :: r => r
        | r => r
      let w := rest2.takeWhile isWS
      if w.contains '\n' then
        let nls := w.reverse.takeWhile (fun c => c ≠ '\n')
        some (bodyUpToBoldStop (rest2.drop (w.length - nls.length)))
      else none
    else none
  else none

/-- `re.search` of the bold-section regex: leftmost match, group 1. -/
def searchBoldSection (label : Str) : Str → Option Str
  | [] => none
  | c :: cs =>
    match matchBoldSectionAt label (c :: cs) with
    | some b => some b
    | none => searchBoldSection label cs

/-- `re.finditer(r'\[([^\]]+)\]\(([^)]+)\)', text)`: all non-overlapping
`[text](path)` links, leftmost first; scanning resumes after a match and
one character further after a failed attempt.  The fuel argument (the
initial length) only serves termination. -/
def findLinksAux : Nat → Str → List (Str × Str)
  | 0, _ => []
  | _ + 1, [] => []
  | fuel + 1, '[' :: cs =>
    let txt := cs.takeWhile (fun c => c ≠ ']')
    if txt.isEmpty then findLinksAux fuel cs
    else
      match cs.drop txt.length with
      | ']' :: '(' :: cs2 =>
        let url := cs2.takeWhile (fun c => c ≠ ')')
        if url.isEmpty then findLinksAux fuel cs
        else
          (match cs2.drop url.length with
           | ')' :: cs3 => (txt, url) :: findLinksAux fuel cs3
           | _ => findLinksAux fuel cs)
      | _ => findLinksAux fuel cs
  | fuel + 1, _ :: cs => findLinksAux fuel cs

/-- `re.finditer(r'\[([^\]]+)\]\(([^)]+)\)', text)`. -/
def findLinks (l : Str) : List (Str × Str) := findLinksAux l.length l

/-- `link_text.split("—")[0].split("–")[0].strip()` (increment_tracker.py
line 152). -/
def codeOfLinkText (txt : Str) : Str :=
  stripWS (upToFirst "–".data (upToFirst "—".data txt))

/-- `re.sub(r'^-\s*\[[ x]\]\s*', '', line)`: strip a leading checkbox
marker (anchored, deterministic). -/
def subCheckbox (line : Str) : Str :=
  match line with
  | '-' :: rest =>
    (match rest.dropWhile isWS with
     | '[' :: c :: ']' :: rest2 =>
       if c = ' ' || c = 'x' then rest2.dropWhile isWS else line
     | _ => line)
  | _ => line

/-- `re.sub(r'^-\s*', '', line)`: strip a leading bare list marker. -/
def subDash (line : Str) : Str :=
  match line with
  | '-' :: rest => rest.dropWhile isWS
  | _ => line

/-- `re.sub(r'^\d+\.\s*', '', line)`: strip a leading numbered-list
marker. -/
def subNumbered (line : Str) : Str :=
  let ds := line.takeWhile Char.isDigit
  if ds.isEmpty then line
  else
    match line.drop ds.length with
    | '.' :: rest => rest.dropWhile isWS
    | _ => line

/-- The strict acceptance-criteria loop (increment_tracker.py lines
161-167): per line, strip, remove a leading checkbox marker, remove a
leading bare list marker, strip, keep if non-empty. -/
def strictCriteriaLines : List Str → List Str
  | [] => []
  | line :: rest =>
    let cleaned := stripWS (subDash (subCheckbox (stripWS line)))
    if cleaned.isEmpty then strictCriteriaLines rest
    else cleaned :: strictCriteriaLines rest

/-- Strict acceptance criteria from the `## Acceptance Criteria` section
body. -/
def strictCriteria (bodyGroup : Str) : List Str :=
  strictCriteriaLines (splitlines (stripWS bodyGroup))

/-- The flexible acceptance-criteria loop (increment_tracker.py lines
229-239): per line, strip, skip if empty, remove a leading checkbox
marker, a leading bare list marker and a leading numbered-list marker,
strip, keep if non-empty. -/
def flexCriteriaLines : List Str → List Str
  | [] => []
  | line :: rest =>
    let l := stripWS line
    if l.isEmpty then flexCriteriaLines rest
    else
      let cleaned := stripWS (subNumbered (subDash (subCheckbox l)))
      if cleaned.isEmpty then flexCriteriaLines rest
      else cleaned :: flexCriteriaLines rest

/-- Flexible acceptance criteria from the bold-labelled section body. -/
def flexCriteria (bodyGroup : Str) : List Str :=
  flexCriteriaLines (splitlines (stripWS bodyGroup))

/-! ### The parsed record and `parse_increment` -/

/-- The dict returned by `IncrementTracker.parse_increment`
(increment_tracker.py lines 241-251). -/
structure IncrementData where
  number : Nat
  short_desc : Str
  status : Str
  title : Str
  requirement_id : Str
  description : Str
  related_principles : List (Str × Str)
  acceptance_criteria : List Str
  raw_content : Str
deriving Repr, DecidableEq

/-- `IncrementTracker.parse_increment` (increment_tracker.py lines
89-251), as a function of the file content and the filename stem
(`path.stem`). -/
def parseIncrement (content : Str) (stem : Str) : IncrementData :=
  let number := parseNumber stem
  let status := parseStatus stem
  let short_desc := parseShortDesc stem
  -- Pass 1: strict parsing
  let title0 := match searchHeading 1 content with
    | some (g, _) => stripWS g
    | none => []
  let requirement_id0 := (searchReqId content).getD []
  let desc0 := match sectionAfter "## Description".data content with
    | some b => stripWS b
    | none => []
  let principles0 := match sectionAfter "## Related Principles".data content with
    | some b => (findLinks b).map (fun pr : Str × Str => (codeOfLinkText pr.1, pr.2))
    | none => []
  let criteria0 := match sectionAfter "## Acceptance Criteria".data content with
    | some b => strictCriteria b
    | none => []
  -- Pass 2: flexible fallback
  let title1 := if title0.isEmpty then
      match searchHeading 6 content with
      | some (g, _) => stripWS g
      | none => []
    else title0
  let title := if title1.isEmpty then short_desc else title1
  let requirement_id := if requirement_id0.isEmpty && ¬ title.isEmpty then
      (matchTitleId title).getD []
    else requirement_id0
  let desc := if desc0.isEmpty then flexDescription content else desc0
  let principles := if principles0.isEmpty then
      match searchBoldSection "Related Principles".data content with
      | some b => (findLinks b).map (fun pr : Str × Str => (codeOfLinkText pr.1, pr.2))
      | none => []
    else principles0
  let criteria := if criteria0.isEmpty then
      match searchBoldSection "Acceptance Criteria".data content with
      | some b => flexCriteria b
      | none => []
    else criteria0
  { number := number, short_desc := short_desc, status := status,
    title := title, requirement_id := requirement_id, description := desc,
    related_principles := principles, acceptance_criteria := criteria,
    raw_content := content }

/-- `IncrementTracker._is_parse_complete` (increment_tracker.py lines
257-266): a parse is complete exactly when the stripped description is
non-empty. -/
def isParseComplete (inc : IncrementData) : Bool :=
  ¬ (stripWS inc.description).isEmpty

/-! ### The tracker's observable filesystem state -/

/-- One file of the `requirements/` directory: name and text content. -/
structure ReqFile where
  name : Str
  content : Str
deriving Repr, DecidableEq

/-- The state `IncrementTracker` reads and writes: the files of
`requirements/` and of `principles/` (name, content). -/
structure TrackerFS where
  requirements : List ReqFile
  principles : List (Str × Str)
deriving Repr, DecidableEq

/-- The tail `.+\.md$` of the filename patterns: at least one non-newline
character, then `.md` at the end of the name (file names contain no
newline, so `$` is plain end-of-string). -/
def matchDotMdTail (r : Str) : Bool :=
  decide (4 ≤ r.length) && startsWith ".md".data (r.drop (r.length - 3)) &&
    ¬ (r.take (r.length - 3)).contains '\n'

/-- The anchored filename pattern of `IncrementTracker._increment_files`
(increment_tracker.py lines 45-47):
`increment_\d+[-_]<status>[-_].+\.md$` via `pattern.match`. -/
def matchesIncrementFile (status : Str) (name : Str) : Bool :=
  if startsWith "increment_".data name then
    let rest := name.drop 10
    let ds := rest.takeWhile Char.isDigit
    if ds.isEmpty then false
    else
      match rest.drop ds.length with
      | a :: rest2 =>
        isSep a && startsWith status rest2 &&
          (match rest2.drop status.length with
           | b :: rest3 => isSep b && matchDotMdTail rest3
           | [] => false)
      | [] => false
  else false

/-- Lexicographic (code-point) string order, as used by Python `sorted`
on paths inside one directory. -/
def strLe : Str → Str → Bool
  | [], _ => true
  | _ :: _, [] => false
  | a :: as, b :: bs =>
    if a.val < b.val then true
    else if b.val < a.val then false
    else strLe as bs

def insertSorted (x : ReqFile) : List ReqFile → List ReqFile
  | [] => [x]
  | y :: ys => if strLe x.name y.name then x :: y :: ys else y :: insertSorted x ys

/-- Stable ascending sort by file name (Python `sorted`). -/
def sortByName (l : List ReqFile) : List ReqFile := l.foldr insertSorted []

/-- `IncrementTracker._increment_files` (increment_tracker.py lines
38-54): the name-sorted increment files with the given status token. -/
def incrementFiles (fs : TrackerFS) (status : Str) : List ReqFile :=
  sortByName (fs.requirements.filter (fun f => matchesIncrementFile status f.name))

/-- `IncrementTracker.current_todo` (lines 56-59). -/
def currentTodo (fs : TrackerFS) : Option ReqFile :=
  (incrementFiles fs "todo".data).head?

/-- `IncrementTracker.done_count` (lines 61-63). -/
def doneCount (fs : TrackerFS) : Nat := (incrementFiles fs "done".data).length

/-- `IncrementTracker.total_count` (lines 65-67). -/
def totalCount (fs : TrackerFS) : Nat :=
  (incrementFiles fs "todo".data).length + (incrementFiles fs "done".data).length

/-- `IncrementTracker.load_principle` (lines 268-273): the content of
`principles/<code>.md`, when that file exists. -/
def loadPrinciple (fs : TrackerFS) (code : Str) : Option Str :=
  (fs.principles.find? (fun pr => pr.1 == code ++ ".md".data)).map Prod.snd

/-- One entry of `IncrementTracker.resolve_principles`. -/
structure PrincipleData where
  code : Str
  title : Str
  content : Str
deriving Repr, DecidableEq

/-- `IncrementTracker.resolve_principles` (lines 275-297): resolve
`(code, path)` references, suppressing duplicate codes (first wins) and
silently dropping codes with no principle file. -/
def resolvePrinciplesAux (fs : TrackerFS) (seen : List Str) :
    List (Str × Str) → List PrincipleData
  | [] => []
  | (code, _) :: rest =>
    if code ∈ seen then resolvePrinciplesAux fs seen rest
    else
      match loadPrinciple fs code with
      | none => resolvePrinciplesAux fs (code :: seen) rest
      | some content =>
        let title := match searchHeading 1 content with
          | some (g, _) => stripWS g
          | none => code
        { code := code, title := title, content := stripWS content } ::
          resolvePrinciplesAux fs (code :: seen) rest

def resolvePrinciples (fs : TrackerFS) (refs : List (Str × Str)) : List PrincipleData :=
  resolvePrinciplesAux fs [] refs

/-! ### Lifecycle: mark_done and the rename primitive -/

/-- POSIX `Path.rename` inside the requirements directory, atomic from the
caller's point of view: when `old` exists, it is replaced in one step by
`new` (silently overwriting any file already named `new`); when `old` does
not exist the call raises (modelled as `none`) and the state is
unchanged. -/
def fsRename (fs : TrackerFS) (old new : Str) : Option TrackerFS :=
  match fs.requirements.find? (fun f => f.name == old) with
  | none => none
  | some f =>
    some { fs with requirements :=
      { name := new, content := f.content } ::
        fs.requirements.filter (fun g => g.name != old && g.name != new) }

/-- The todo→done renaming of `IncrementTracker.mark_done`
(increment_tracker.py lines 309-314), also used textually by
`format_verification_prompt` (lines 675-679): replace the first
`-todo-` when present, otherwise the first `_todo_`. -/
def doneNameOf (oldName : Str) : Str :=
  if containsSub "-todo-".data oldName then
    replaceFirst oldName "-todo-".data "-done-".data
  else
    replaceFirst oldName "_todo_".data "_done_".data

/-- `IncrementTracker.mark_done` (increment_tracker.py lines 303-317):
rename the increment file from todo to done, returning the new name and
the new state; `none` models the `rename` raising, in which case the
caller's state is unchanged. -/
def markDone (fs : TrackerFS) (oldName : Str) : Option (Str × TrackerFS) :=
  let newName := doneNameOf oldName
  (fsRename fs oldName newName).map (fun fs2 => (newName, fs2))

/-! ### The git analyzer -/

/-- The observable effect of one `subprocess.run([...])` invocation: its
captured standard output.  `none` models the invocation itself raising
(e.g. a missing `git` binary).  Note that `subprocess.run` without
`check=True` does NOT raise on a non-zero exit status: running git in a
non-repository directory yields `some` with empty stdout. -/
structure GitEnv where
  run : List Str → Option Str

/-- `{hash, message, date}` as produced by the git analyzer. -/
structure CommitData where
  hash : Str
  message : Str
  date : Str
deriving Repr, DecidableEq

/-- Python `line.split("|", 2)` packaged as a commit record: `parts[0]`,
`parts[1] if len(parts) > 1 else ""`, `parts[2] if len(parts) > 2 else ""`. -/
def splitPipe2 (line : Str) : CommitData :=
  let h := line.takeWhile (fun c => c ≠ '|')
  let rest := (line.drop h.length).drop 1
  let msg := rest.takeWhile (fun c => c ≠ '|')
  { hash := h, message := msg, date := (rest.drop msg.length).drop 1 }

/-- Python `s.split(sep)` (keeping empty parts). -/
def splitChar (sep : Char) : Str → List Str
  | [] => [[]]
  | c :: cs =>
    if c = sep then [] :: splitChar sep cs
    else
      match splitChar sep cs with
      | h :: t => (c :: h) :: t
      | [] => [[c]]

/-- `result.stdout.strip().split("\n") if result.stdout.strip() else []`
(analyzers.py lines 233 and 242). -/
def logLines (out : Str) : List Str :=
  if (stripWS out).isEmpty then [] else splitChar '\n' (stripWS out)

/-- The dedup-by-hash loop of `get_commits_for_increment` (analyzers.py
lines 244-258): skip lines without `|`, keep the first line per hash. -/
def dedupCommits (seen : List Str) : List Str → List CommitData
  | [] => []
  | line :: rest =>
    if line.contains '|' then
      let c := splitPipe2 line
      if c.hash ∈ seen then dedupCommits seen rest
      else c :: dedupCommits (c.hash :: seen) rest
    else dedupCommits seen rest

/-- The `git log --grep` invocation of `get_commits_for_increment`. -/
def grepLogArgs (tag : Str) : List Str :=
  ["git".data, "log".data, "--all".data, "--pretty=format:%H|%s|%ad".data,
   "--date=iso".data, "--grep=".data ++ tag]

/-- `GitAnalyzer.get_commits_for_increment` (analyzers.py lines 217-261):
search the canonical tag `INCREMENT <4-digit>` and the alternate spelling
`increment_<4-digit>`, concatenate the result lines and deduplicate by
hash; any raising invocation yields `[]`. -/
def getCommitsForIncrement (env : GitEnv) (n : Nat) : List CommitData :=
  match env.run (grepLogArgs ("INCREMENT ".data ++ pad4 n)) with
  | none => []
  | some out1 =>
    match env.run (grepLogArgs ("increment_".data ++ pad4 n)) with
    | none => []
    | some out2 => dedupCommits [] (logLines out1 ++ logLines out2)

/-- `GitAnalyzer.get_current_hash` (analyzers.py lines 143-154). -/
def getCurrentHash (env : GitEnv) : Str :=
  match env.run ["git".data, "rev-parse".data, "HEAD".data] with
  | none => []
  | some out => (stripWS out).take 8

/-- `GitAnalyzer.get_branch` (analyzers.py lines 191-202). -/
def getBranch (env : GitEnv) : Str :=
  match env.run ["git".data, "branch".data, "--show-current".data] with
  | none => "unknown".data
  | some out => stripWS out

/-- `GitAnalyzer.get_recent_commits` (analyzers.py lines 156-176). -/
def getRecentCommits (env : GitEnv) (count : Nat) : List CommitData :=
  match env.run ["git".data, "log".data, '-' :: natStr count,
      "--pretty=format:%H|%s|%ad".data, "--date=iso".data] with
  | none => []
  | some out =>
    (splitChar '\n' (stripWS out)).filterMap (fun line =>
      if line.contains '|' then
        let c := splitPipe2 line
        some { c with hash := c.hash.take 8 }
      else none)

/-- `GitAnalyzer.get_uncommitted_changes` (analyzers.py lines 178-189). -/
def getUncommittedChanges (env : GitEnv) : List Str :=
  match env.run ["git".data, "status".data, "--porcelain".data] with
  | none => []
  | some out =>
    (splitChar '\n' (stripWS out)).filterMap (fun line =>
      if (stripWS line).isEmpty then none else some (stripWS line))

/-- `GitAnalyzer.get_changed_files_in_last_commit` (analyzers.py lines
204-215). -/
def getChangedFilesInLastCommit (env : GitEnv) : List Str :=
  match env.run ["git".data, "diff-tree".data, "--no-commit-id".data,
      "--name-only".data, "-r".data, "HEAD".data] with
  | none => []
  | some out =>
    (splitChar '\n' (stripWS out)).filter (fun f => ¬ (stripWS f).isEmpty)

/-! ### Prompt rendering -/

/-- `"=" * 70`. -/
def eq70 : Str := List.replicate 70 '='

/-- `"-" * 40`. -/
def dash40 : Str := List.replicate 40 '-'

/-- Python `str.replace(a, b)` for single characters. -/
def replaceChar (a b : Char) (l : Str) : Str :=
  l.map (fun c => if c = a then b else c)

/-- Python `str.title()`: the first letter of each maximal alphabetic run
is upper-cased, the rest lower-cased. -/
def titleCaseAux : Bool → Str → Str
  | _, [] => []
  | prevAlpha, c :: cs =>
    if c.isAlpha then
      (if prevAlpha then c.toLower else c.toUpper) :: titleCaseAux true cs
    else c :: titleCaseAux false cs

def titleCase (l : Str) : Str := titleCaseAux false l

/-- The commit message built by the prompt functions (increment_tracker.py
lines 432-433 and 553-554):
`short_desc.replace('-', ' ').replace('_', ' ').title()` after
`INCREMENT <4-digit>: `. -/
def commitMsgOf (inc : IncrementData) : Str :=
  "INCREMENT ".data ++ pad4 inc.number ++ ": ".data ++
    titleCase (replaceChar '_' ' ' (replaceChar '-' ' ' inc.short_desc))

/-- Header lines of `format_self_inspection_prompt` (lines 339-346). -/
def selfInspectionHeaderLines (fs : TrackerFS) (name : Str)
    (inc : IncrementData) : List Str :=
  [eq70,
   "  ⚠️  INCREMENT ".data ++ pad4 inc.number ++ ": SELF-INSPECTION REQUIRED".data,
   "  File: ".data ++ name,
   "  Progress: ".data ++ natStr (doneCount fs) ++ "/".data ++
     natStr (totalCount fs) ++ " increments completed".data,
   eq70, []]

/-- Scenario 1 of `format_self_inspection_prompt` (lines 348-368): the
empty-file branch. -/
def selfInspectionEmptyLines : List Str :=
  ["DIAGNOSIS: File is EMPTY".data, dash40,
   "  The increment file exists but contains no content.".data, [],
   "ACTION REQUIRED:".data, dash40,
   "  Write the requirement specification into this file.".data,
   "  Recommended structure (any heading level accepted):".data, [],
   "    ### <ID>: <Title>".data,
   "    <Requirement description — one or more paragraphs>".data, [],
   "    **Acceptance Criteria:**".data,
   "    1. <criterion>".data,
   "    2. <criterion>".data, [],
   "    **Related Principles:**".data,
   "    - [CODE](../principles/CODE.md)".data, []]

/-- The per-field ✅/❌ mark of the PARSE RESULTS table (line 396). -/
def fieldMark (value : Str) : Str :=
  if ¬ value.isEmpty && value ≠ "0".data then "✅".data else "❌ EMPTY".data

/-- Scenario 2 of `format_self_inspection_prompt` (lines 369-429): the
non-standard-format branch. -/
def selfInspectionNonstdLines (inc : IncrementData) : List Str :=
  ["DIAGNOSIS: Non-standard format — key fields could not be extracted".data,
   dash40,
   "  The file contains content, but the parser could not extract".data,
   "  a description or acceptance criteria.  The raw content is".data,
   "  included below for manual interpretation.".data, [],
   "PARSE RESULTS:".data, dash40]
  ++ ([("Title".data, inc.title),
       ("Requirement ID".data, inc.requirement_id),
       ("Description".data, inc.description),
       ("Acceptance Criteria".data, natStr inc.acceptance_criteria.length),
       ("Related Principles".data, natStr inc.related_principles.length)].map
        (fun pr : Str × Str => "  ".data ++ pr.1 ++ ": ".data ++ fieldMark pr.2))
  ++ [[],
      "RAW FILE CONTENT:".data, dash40, inc.raw_content, [],
      "ACTION REQUIRED:".data, dash40,
      "  Review the raw content above and choose one of:".data, [],
      "  Option A — Implement as-is: treat the raw text as the".data,
      "    requirement and implement it directly.".data, [],
      "  Option B — Reformat first: restructure the file so the".data,
      "    parser can extract fields automatically.  Recommended".data,
      "    structure:".data, [],
      "      ### <ID>: <Title>".data,
      "      <Requirement description>".data, [],
      "      **Acceptance Criteria:**".data,
      "      1. <criterion>".data, []]

/-- The WORKFLOW block of `format_self_inspection_prompt` (lines
431-443). -/
def selfInspectionWorkflowLines (inc : IncrementData) : List Str :=
  ["WORKFLOW:".data, dash40,
   "  1. Resolve the issue above".data,
   "  2. Run tests:  python -m pytest selfdev/tests/".data,
   "  3. Run linter: python -m py_compile <changed files>".data,
   "  4. List changed files in the commit body".data,
   "  5. git add -A && git commit -m \"".data ++ commitMsgOf inc ++ "\"".data,
   "  6. git push".data,
   "  7. Run ./develop.sh  (verify & get next increment)".data, []]

/-- `IncrementTracker.format_self_inspection_prompt` (increment_tracker.py
lines 323-445), at the level of the `lines` list it joins. -/
def formatSelfInspectionPromptLines (fs : TrackerFS) (name : Str)
    (inc : IncrementData) : List Str :=
  selfInspectionHeaderLines fs name inc ++
    (if (stripWS inc.raw_content).isEmpty then selfInspectionEmptyLines
     else selfInspectionNonstdLines inc) ++
    selfInspectionWorkflowLines inc

/-- `enumerate(..., 1)`-style numbered rendering of the criteria lists. -/
def numberedLines (fmt : Nat → Str → Str) : Nat → List Str → List Str
  | _, [] => []
  | i, c :: rest => fmt i c :: numberedLines fmt (i + 1) rest

/-- The normal (parse-complete) branch of
`IncrementTracker.format_increment_prompt` (lines 464-567). -/
def normalPromptLines (fs : TrackerFS) (name : Str) (inc : IncrementData) :
    List Str :=
  let principles := resolvePrinciples fs inc.related_principles
  [eq70,
   "  INCREMENT ".data ++ pad4 inc.number ++ ": ".data ++ inc.title,
   "  Requirement: ".data ++ inc.requirement_id,
   "  Status: TODO".data,
   "  Progress: ".data ++ natStr (doneCount fs) ++ "/".data ++
     natStr (totalCount fs) ++ " increments completed".data,
   eq70, [],
   "SCOPE:".data, dash40,
   "  Target increment: ".data ++ pad4 inc.number ++ " — ".data ++ inc.title,
   "  Requirement ID:   ".data ++ inc.requirement_id,
   "  Only files related to this increment may be created or modified.".data, [],
   "REQUIREMENT:".data, dash40, inc.description, []]
  ++ (if inc.acceptance_criteria.isEmpty then []
      else ["ACCEPTANCE CRITERIA:".data, dash40]
        ++ numberedLines (fun i c => "  ".data ++ natStr i ++ ". ".data ++ c) 1
            inc.acceptance_criteria
        ++ [[]])
  ++ ["RULES:".data, dash40,
      "  ALLOWED:".data,
      "    - Implement the requirement described above.".data,
      "    - Create or modify files directly related to this increment.".data,
      "    - Add or update tests that verify this increment.".data,
      "  FORBIDDEN:".data,
      "    - Do NOT rename todo→done automatically. NEVER.".data,
      "    - Do NOT auto-advance increments by rerunning develop.sh.".data,
      "    - Do NOT mark an increment done until a VERIFICATION step".data,
      "      has explicitly confirmed all acceptance criteria are met.".data,
      "    - Do NOT modify unrelated increments or requirements.".data,
      "    - Do NOT skip acceptance criteria.".data, [],
      "COMPLETION CRITERIA:".data, dash40,
      "  For this increment, complete ALL of the following in order:".data,
      "    1. Implement the requirement (code changes).".data,
      "    2. Run tests and linter — all must pass.".data,
      "    3. List all changed/created files in the commit message body.".data,
      "    4. Commit & push.".data,
      "    5. Run ./develop.sh to trigger VERIFICATION.".data,
      "    6. Only after verification passes, EXPLICITLY rename".data,
      "       ".data ++ name,
      "       from *todo* → *done* (or run ./develop.sh --advance).".data,
      "    ⚠  The rename must NEVER happen automatically.".data, [],
      "TRACEABILITY:".data, dash40,
      "  In your final summary / commit message body:".data,
      "    - Map each acceptance criterion to the file(s) that satisfy it.".data,
      "    - Map each review comment to the exact commit diff hunk.".data,
      "    - Reference the increment number in every commit message.".data, []]
  ++ (if principles.isEmpty then []
      else ["APPLICABLE PRINCIPLES:".data, eq70]
        ++ principles.flatMap (fun p =>
            [[], "--- ".data ++ p.code ++ " ---".data, p.content, []])
        ++ [eq70])
  ++ [[], "WORKFLOW:".data, dash40,
      "  1. Implement the requirement above".data,
      "  2. Run tests:  python -m pytest selfdev/tests/".data,
      "  3. Run linter: python -m py_compile <changed files>".data,
      "  4. List changed files in the commit body".data,
      "  5. git add -A && git commit -m \"".data ++ commitMsgOf inc ++ "\"".data,
      "  6. git push".data,
      "  7. Run ./develop.sh  (verify & get next increment)".data, []]

/-- `IncrementTracker.format_increment_prompt` (increment_tracker.py lines
451-567), at the level of the `lines` list: parse the file, route to the
self-inspection prompt when the parse-completeness gate fails, otherwise
build the normal prompt. -/
def formatIncrementPromptLines (fs : TrackerFS) (file : ReqFile) : List Str :=
  let inc := parseIncrement file.content (stemOf file.name)
  if ¬ isParseComplete inc then formatSelfInspectionPromptLines fs file.name inc
  else normalPromptLines fs file.name inc

/-- `IncrementTracker.format_verification_prompt` (increment_tracker.py
lines 617-707), at the level of the `lines` list.  (The method also
resolves the increment's principles but never uses the result.)  The
`mv` rename instruction is emitted as text only. -/
def formatVerificationPromptLines (fs : TrackerFS) (file : ReqFile) : List Str :=
  let inc := parseIncrement file.content (stemOf file.name)
  let newName := doneNameOf file.name
  [eq70,
   "  🔍 VERIFICATION: INCREMENT ".data ++ pad4 inc.number,
   "  ".data ++ inc.title,
   "  Requirement: ".data ++ inc.requirement_id,
   "  Progress: ".data ++ natStr (doneCount fs) ++ "/".data ++
     natStr (totalCount fs) ++ " increments completed".data,
   eq70, [],
   "PURPOSE:".data, dash40,
   "  This increment was already presented. Before it can be".data,
   "  marked as done, you MUST verify the implementation.".data,
   "  DO NOT rename the file until every check below passes.".data, []]
  ++ (if inc.acceptance_criteria.isEmpty then []
      else ["STEP 1 — VERIFY ACCEPTANCE CRITERIA:".data, dash40,
            "  Check each criterion against the current codebase.".data,
            "  Mark ✅ only when you have confirmed the code satisfies it:".data, []]
        ++ numberedLines (fun i c => "  [ ] ".data ++ natStr i ++ ". ".data ++ c) 1
            inc.acceptance_criteria
        ++ [[]])
  ++ ["STEP 2 — RUN TESTS:".data, dash40,
      "  python -m pytest selfdev/tests/".data,
      "  ALL tests must pass. If any test fails, fix it first.".data, [],
      "STEP 3 — RUN LINTER:".data, dash40,
      "  python -m py_compile <changed files>".data,
      "  No syntax or import errors are allowed.".data, [],
      "STEP 4 — RENAME (only after steps 1-3 pass):".data, dash40,
      "  ⚠  THIS IS THE ONLY WAY TO ADVANCE THE INCREMENT.".data,
      "  After ALL checks above pass, EXPLICITLY rename the file:".data, [],
      "    mv requirements/".data ++ file.name ++ " requirements/".data ++ newName, [],
      "  Or equivalently run:".data,
      "    ./develop.sh --advance".data, [],
      "  ❌ If ANY acceptance criterion is NOT met, or tests fail:".data,
      "     DO NOT RENAME. Fix the issues and re-run verification.".data, [],
      "TRACEABILITY:".data, dash40,
      "  In your response, provide:".data,
      "    - For each acceptance criterion: the file(s) and line(s)".data,
      "      that satisfy it.".data,
      "    - Test output (pass/fail summary).".data,
      "    - Explicit statement: \x27All criteria verified — renaming".data,
      "      ".data ++ file.name ++ " → ".data ++ newName ++ "\x27".data,
      "    - OR: \x27Criteria X not met — not renaming.\x27".data, []]

/-- Python `"\n".join(lines)`. -/
def joinLines : List Str → Str
  | [] => []
  | l :: rest => l ++ rest.flatMap (fun x => '\n' :: x)

/-- The string returned by `format_increment_prompt`. -/
def formatIncrementPrompt (fs : TrackerFS) (file : ReqFile) : Str :=
  joinLines (formatIncrementPromptLines fs file)

/-- The string returned by `format_verification_prompt`. -/
def formatVerificationPrompt (fs : TrackerFS) (file : ReqFile) : Str :=
  joinLines (formatVerificationPromptLines fs file)

/-- `format_verification_prompt` as a state transformer on the tracker
filesystem.  The method body performs reads only (parse, counts, string
building) and contains no call to the rename operation, so its
state-passing translation returns the state it was given. -/
def formatVerificationPromptOp (fs : TrackerFS) (file : ReqFile) :
    Str × TrackerFS :=
  (formatVerificationPrompt fs file, fs)

/-- `format_increment_prompt` as a state transformer on the tracker
filesystem (reads only, no rename call). -/
def formatIncrementPromptOp (fs : TrackerFS) (file : ReqFile) :
    Str × TrackerFS :=
  (formatIncrementPrompt fs file, fs)

/-! ### Revert planning -/

/-- The anchored filename pattern of `IncrementTracker._find_increment_file`
(increment_tracker.py lines 718-720):
`increment_<4-digit-number>[-_](?:todo|done)[-_].+\.md$`. -/
def matchesIncrementNumFile (num : Nat) (name : Str) : Bool :=
  if startsWith ("increment_".data ++ pad4 num) name then
    match name.drop (10 + (pad4 num).length) with
    | a :: rest2 =>
      isSep a && (startsWith "todo".data rest2 || startsWith "done".data rest2) &&
        (match rest2.drop 4 with
         | b :: rest3 => isSep b && matchDotMdTail rest3
         | [] => false)
    | [] => false
  else false

/-- `IncrementTracker._find_increment_file` (lines 713-726): the first
name-sorted increment file (todo or done) with the given number. -/
def findIncrementFile (fs : TrackerFS) (num : Nat) : Option ReqFile :=
  (sortByName fs.requirements).find? (fun f => matchesIncrementNumFile num f.name)

/-- The `current_num` computation of `format_revert_from_prompt`
(increment_tracker.py lines 810-821): the parsed number of the current
todo increment; when that is 0 — in particular when no todo increment
remains — the parsed number of the last name-sorted done increment
(0 when there is none either). -/
def revertLowerBound (fs : TrackerFS) : Nat :=
  let base := match currentTodo fs with
    | some f => (parseIncrement f.content (stemOf f.name)).number
    | none => 0
  if base = 0 then
    match (incrementFiles fs "done".data).getLast? with
    | some f => (parseIncrement f.content (stemOf f.name)).number
    | none => 0
  else base

/-- Python `range(a, b - 1, -1)` over naturals: `[a, a-1, ..., b]` when
`b ≤ a`, else `[]`. -/
def descRange (a b : Nat) : List Nat := (List.range' b (a + 1 - b)).reverse

/-- The per-increment title lookup of the INCREMENTS-TO-REVERT loop
(increment_tracker.py lines 843-847): the parsed title of the increment
file with that number, `""` when no file exists. -/
def revertTitleOf (fs : TrackerFS) (num : Nat) : Str :=
  match findIncrementFile fs num with
  | some f => (parseIncrement f.content (stemOf f.name)).title
  | none => []

/-- One iteration of the INCREMENTS-TO-REVERT loop of
`format_revert_from_prompt` (lines 842-856). -/
def incRevertBlock (fs : TrackerFS) (env : GitEnv) (num : Nat) : List Str :=
  let commits := getCommitsForIncrement env num
  ("  INCREMENT ".data ++ pad4 num ++ ": ".data ++ revertTitleOf fs num) ::
    (if commits.isEmpty then ["    (no commits found)".data]
     else commits.map (fun c => "    ".data ++ c.hash.take 8 ++ "  ".data ++ c.message))
    ++ [[]]

/-- The lines of `format_revert_from_prompt` before the
INCREMENTS-TO-REVERT loop (increment_tracker.py lines 825-841). -/
def revertFromHeaderLines (fromNum bound : Nat) : List Str :=
  [eq70,
   "  REVERT INCREMENTS ".data ++ pad4 fromNum ++ " → ".data ++ pad4 bound,
   eq70, [],
   "OBJECTIVE:".data, dash40,
   "  Revert all changes from increment ".data ++ pad4 fromNum ++
     " down to ".data ++ pad4 bound ++ ".".data,
   "  Process increments in reverse order (highest first).".data, [],
   "INCREMENTS TO REVERT (reverse order):".data, dash40]

/-- The lines of `format_revert_from_prompt` after the loop
(increment_tracker.py lines 858-877). -/
def revertFromFooterLines (fromNum bound : Nat) : List Str :=
  ["STEPS:".data, dash40,
   "  1. Revert each increment from ".data ++ pad4 fromNum ++
     " down to ".data ++ pad4 bound ++ ".".data,
   "  2. For each increment, revert its commits in reverse chronological order:".data,
   "     git revert --no-commit <hash>".data,
   "  3. Resolve any merge conflicts at each step.".data,
   "  4. Run tests:  python -m pytest selfdev/tests/".data,
   "  5. git add -A && git commit -m \"REVERT INCREMENTS ".data ++
     pad4 fromNum ++ "-".data ++ pad4 bound ++ "\"".data,
   "  6. git push".data, [],
   "POST-REVERT:".data, dash40,
   "  Rename done increment files back to todo for ".data ++ pad4 bound ++
     "–".data ++ pad4 fromNum ++ ".".data, []]

/-- `IncrementTracker.format_revert_from_prompt` (increment_tracker.py
lines 803-878), at the level of the `lines` list. -/
def formatRevertFromLines (fs : TrackerFS) (env : GitEnv) (fromNum : Nat) :
    List Str :=
  revertFromHeaderLines fromNum (revertLowerBound fs)
  ++ (descRange fromNum (revertLowerBound fs)).flatMap (incRevertBlock fs env)
  ++ revertFromFooterLines fromNum (revertLowerBound fs)

/-- The string returned by `format_revert_from_prompt`. -/
def formatRevertFromPrompt (fs : TrackerFS) (env : GitEnv) (fromNum : Nat) : Str :=
  joinLines (formatRevertFromLines fs env fromNum)

/-! ### Helper lemmas -/

theorem startsWith_self_append (p t : Str) : startsWith p (p ++ t) = true := by
  induction p with
  | nil => simp [startsWith]
  | cons c cs ih => simp [startsWith, ih]

theorem startsWith_extend {p s : Str} (t : Str) (h : startsWith p s = true) :
    startsWith p (s ++ t) = true := by
  induction p generalizing s with
  | nil => simp [startsWith]
  | cons c cs ih =>
    cases s with
    | nil => simp [startsWith] at h
    | cons a as =>
      simp only [startsWith, Bool.and_eq_true] at h ⊢
      exact ⟨h.1, ih h.2⟩

theorem containsSub_append_right (pat l r : Str) (h : containsSub pat r = true) :
    containsSub pat (l ++ r) = true := by
  induction l with
  | nil => simpa using h
  | cons c cs ih => simp [containsSub, ih]

theorem containsSub_append_left (pat l r : Str) (h : containsSub pat l = true) :
    containsSub pat (l ++ r) = true := by
  induction l with
  | nil =>
    simp only [containsSub] at h
    cases pat with
    | nil =>
      cases r with
      | nil => simpa [containsSub] using h
      | cons a as => simp [containsSub, startsWith]
    | cons p ps => simp [startsWith] at h
  | cons c cs ih =>
    simp only [containsSub, Bool.or_eq_true] at h ⊢
    rcases h with h | h
    · exact Or.inl (by simpa using startsWith_extend r h)
    · exact Or.inr (ih h)

theorem containsSub_self_append (pat r : Str) :
    containsSub pat (pat ++ r) = true := by
  cases pat with
  | nil =>
    cases r with
    | nil => simp [containsSub, startsWith]
    | cons a as => simp [containsSub, startsWith]
  | cons p ps =>
    simp only [containsSub, Bool.or_eq_true]
    exact Or.inl (by simpa using startsWith_self_append (p :: ps) r)

theorem containsSub_flatMapNL {pat l : Str} (L : List Str) (hl : l ∈ L)
    (hc : containsSub pat l = true) :
    containsSub pat (L.flatMap (fun x => '\n' :: x)) = true := by
  induction L with
  | nil => cases hl
  | cons y rest ih =>
    rcases List.mem_cons.mp hl with rfl | hmem
    · exact containsSub_append_left _ _ _ (by simp [containsSub, hc])
    · exact containsSub_append_right _ _ _ (ih hmem)

theorem containsSub_joinLines {pat l : Str} (L : List Str) (hl : l ∈ L)
    (hc : containsSub pat l = true) :
    containsSub pat (joinLines L) = true := by
  cases L with
  | nil => cases hl
  | cons x rest =>
    rcases List.mem_cons.mp hl with rfl | hmem
    · exact containsSub_append_left _ _ _ hc
    · exact containsSub_append_right _ _ _ (containsSub_flatMapNL rest hmem hc)

/-- Facts about ASCII digits used when reasoning about contract
filenames. -/
theorem digit_facts {c : Char} (h : c.isDigit = true) :
    isSep c = false ∧ c ≠ 't' ∧ c ≠ 'd' ∧ c ≠ '\n' ∧ c ≠ '-' ∧ c ≠ '_' := by
  refine ⟨?_, ?_, ?_, ?_, ?_, ?_⟩
  · have h1 : c ≠ '-' := by rintro rfl; simp [Char.isDigit] at h
    have h2 : c ≠ '_' := by rintro rfl; simp [Char.isDigit] at h
    simp [isSep, h1, h2]
  all_goals (rintro rfl; simp [Char.isDigit] at h)

/-! ### Claim C2 — parse totality and raw-content preservation -/

/-- C2: for every raw content string and filename, `parse_increment`
returns a record without raising (the embedding is a total function by
construction); the returned `raw_content` always equals the input content
unchanged, and in the worst case — here an empty file whose name carries
no status token — `title`, `description` and `acceptance_criteria` are
all empty. -/
theorem parse_total_and_raw_preserved :
    (∀ content stem : Str, (parseIncrement content stem).raw_content = content) ∧
    (parseIncrement [] "increment".data).title = [] ∧
    (parseIncrement [] "increment".data).description = [] ∧
    (parseIncrement [] "increment".data).acceptance_criteria = [] := by
  refine ⟨fun content stem => rfl, by decide, by decide, by decide⟩

/-! ### Claim C8 — VersionControlQuery failure semantics (corrected) -/

/-- C8 counterexample: in a non-repository directory the git invocations
run without raising (`subprocess.run` does not raise on a non-zero exit
status) and capture empty stdout; `get_branch` then returns `""`, not
`"unknown"` as the claim states. -/
theorem getBranch_nonrepo_counterexample :
    getBranch { run := fun _ => some [] } = [] ∧
    getBranch { run := fun _ => some [] } ≠ "unknown".data := by
  constructor
  · rfl
  · intro h
    simp [getBranch, stripWS, lstripWS, rstripWS] at h

/-- C8 (amended): every embedded git-query operation catches a raising
tool invocation and returns its documented neutral value — `get_branch`
returns `"unknown"`, `get_current_hash` returns `""` and the commit/file
list operations return `[]` — when the underlying invocation raises
(e.g. missing binary); a non-repository directory, where the tool runs
but prints nothing, instead yields the empty-output value (`""` for
`get_branch`). -/
theorem vcq_failure_neutral (env : GitEnv) :
    (env.run ["git".data, "branch".data, "--show-current".data] = none →
      getBranch env = "unknown".data) ∧
    (env.run ["git".data, "rev-parse".data, "HEAD".data] = none →
      getCurrentHash env = []) ∧
    (∀ n, env.run (grepLogArgs ("INCREMENT ".data ++ pad4 n)) = none →
      getCommitsForIncrement env n = []) ∧
    (∀ count, env.run ["git".data, "log".data, '-' :: natStr count,
        "--pretty=format:%H|%s|%ad".data, "--date=iso".data] = none →
      getRecentCommits env count = []) ∧
    (env.run ["git".data, "status".data, "--porcelain".data] = none →
      getUncommittedChanges env = []) ∧
    (env.run ["git".data, "diff-tree".data, "--no-commit-id".data,
        "--name-only".data, "-r".data, "HEAD".data] = none →
      getChangedFilesInLastCommit env = []) := by
  refine ⟨fun h => ?_, fun h => ?_, fun n h => ?_, fun count h => ?_,
    fun h => ?_, fun h => ?_⟩
  · simp [getBranch, h]
  · simp [getCurrentHash, h]
  · unfold getCommitsForIncrement
    rw [h]
  · simp [getRecentCommits, h]
  · simp [getUncommittedChanges, h]
  · simp [getChangedFilesInLastCommit, h]

/-- Witness for `vcq_failure_neutral` at the always-raising environment. -/
theorem vcq_failure_neutral_witness :
    (GitEnv.run { run := fun _ => none }
        ["git".data, "branch".data, "--show-current".data] = none) ∧
    getBranch { run := fun _ => none } = "unknown".data ∧
    getCurrentHash { run := fun _ => none } = [] ∧
    getCommitsForIncrement { run := fun _ => none } 1 = [] ∧
    getRecentCommits { run := fun _ => none } 10 = [] ∧
    getUncommittedChanges { run := fun _ => none } = [] ∧
    getChangedFilesInLastCommit { run := fun _ => none } = [] :=
  ⟨rfl,
   (vcq_failure_neutral { run := fun _ => none }).1 rfl,
   (vcq_failure_neutral { run := fun _ => none }).2.1 rfl,
   (vcq_failure_neutral { run := fun _ => none }).2.2.1 1 rfl,
   (vcq_failure_neutral { run := fun _ => none }).2.2.2.1 10 rfl,
   (vcq_failure_neutral { run := fun _ => none }).2.2.2.2.1 rfl,
   (vcq_failure_neutral { run := fun _ => none }).2.2.2.2.2 rfl⟩

/-! ### Claim C5 — commit search deduplication -/

/-- One `git log` output line as the dedup loop reads it: skipped when it
contains no `|`, otherwise split into a commit record. -/
def parseLogLine (line : Str) : Option CommitData :=
  if line.contains '|' then some (splitPipe2 line) else none

/-- The commit records contained in one `git log` output, in order: the
claim's view of the result of one tag search. -/
def parsedCommits (out : Str) : List CommitData :=
  (logLines out).filterMap parseLogLine

/-- Spec-side (claim C5 wording): keep only the first commit per hash. -/
def firstSeenByHash (seen : List Str) : List CommitData → List CommitData
  | [] => []
  | c :: rest =>
    if c.hash ∈ seen then firstSeenByHash seen rest
    else c :: firstSeenByHash (c.hash :: seen) rest

theorem firstSeenByHash_congr {s1 s2 : List Str}
    (h : ∀ x, x ∈ s1 ↔ x ∈ s2) :
    ∀ l, firstSeenByHash s1 l = firstSeenByHash s2 l := by
  intro l
  induction l generalizing s1 s2 with
  | nil => rfl
  | cons c rest ih =>
    simp only [firstSeenByHash]
    by_cases hc : c.hash ∈ s1
    · rw [if_pos hc, if_pos ((h c.hash).mp hc)]
      exact ih h
    · rw [if_neg hc, if_neg (fun hx => hc ((h c.hash).mpr hx))]
      refine congrArg _ (ih ?_)
      intro x
      simp only [List.mem_cons]
      exact or_congr Iff.rfl (h x)

theorem dedupCommits_eq (seen : List Str) (lines : List Str) :
    dedupCommits seen lines = firstSeenByHash seen (lines.filterMap parseLogLine) := by
  induction lines generalizing seen with
  | nil => rfl
  | cons line rest ih =>
    simp only [dedupCommits, parseLogLine, List.filterMap_cons]
    by_cases hp : line.contains '|' = true
    · simp only [if_pos hp, firstSeenByHash]
      by_cases hs : (splitPipe2 line).hash ∈ seen
      · rw [if_pos hs, if_pos hs, ih]
      · rw [if_neg hs, if_neg hs, ih]
    · simp only [Bool.not_eq_true] at hp
      simp only [hp, Bool.false_eq_true, if_false, ih]

theorem firstSeenByHash_of_nodup {l : List CommitData}
    (hn : (l.map CommitData.hash).Nodup) :
    ∀ seen, firstSeenByHash seen l = l.filter (fun c => c.hash ∉ seen) := by
  induction l with
  | nil => intro seen; rfl
  | cons c rest ih =>
    intro seen
    simp only [List.map_cons, List.nodup_cons] at hn
    by_cases hc : c.hash ∈ seen
    · rw [firstSeenByHash, if_pos hc, List.filter_cons, if_neg (by simp [hc]),
        ih hn.2]
    · rw [firstSeenByHash, if_neg hc, List.filter_cons, if_pos (by simp [hc]),
        ih hn.2 (c.hash :: seen)]
      refine congrArg _ (List.filter_congr ?_)
      intro x hx
      have hxc : x.hash ≠ c.hash := fun he =>
        hn.1 (he ▸ List.mem_map_of_mem CommitData.hash hx)
      simp [List.mem_cons, hxc]

theorem firstSeenByHash_append (seen : List Str) (xs ys : List CommitData) :
    firstSeenByHash seen (xs ++ ys) =
      firstSeenByHash seen xs ++
        firstSeenByHash ((firstSeenByHash seen xs).map CommitData.hash ++ seen) ys := by
  induction xs generalizing seen with
  | nil => simp [firstSeenByHash]
  | cons c xs ih =>
    simp only [List.cons_append, firstSeenByHash, List.append_eq]
    by_cases hc : c.hash ∈ seen
    · simp only [if_pos hc]
      exact ih seen
    · simp only [if_neg hc, List.map_cons, List.cons_append]
      have hiff : ∀ x,
          x ∈ List.map CommitData.hash (firstSeenByHash (c.hash :: seen) xs) ++
              c.hash :: seen ↔
          x ∈ c.hash ::
              (List.map CommitData.hash (firstSeenByHash (c.hash :: seen) xs) ++
                seen) := by
        intro x
        simp only [List.mem_append, List.mem_cons]
        tauto
      rw [ih (c.hash :: seen), firstSeenByHash_congr hiff ys]

/-- C5: `get_commits_for_increment` searches both the canonical tag
`INCREMENT <4-digit>` and the alternate spelling `increment_<4-digit>`
and, provided each individual search reports each hash once (as `git log`
does), returns all commits of the primary search in order followed by
exactly those commits of the alternate search whose hash the primary
search did not report, in order; every hash occurs at most once. -/
theorem commits_for_increment_dedup (env : GitEnv) (n : Nat) (out1 out2 : Str)
    (h1 : env.run (grepLogArgs ("INCREMENT ".data ++ pad4 n)) = some out1)
    (h2 : env.run (grepLogArgs ("increment_".data ++ pad4 n)) = some out2)
    (hn1 : ((parsedCommits out1).map CommitData.hash).Nodup)
    (hn2 : ((parsedCommits out2).map CommitData.hash).Nodup) :
    getCommitsForIncrement env n =
      parsedCommits out1 ++
        (parsedCommits out2).filter
          (fun c => c.hash ∉ (parsedCommits out1).map CommitData.hash) ∧
    ((getCommitsForIncrement env n).map CommitData.hash).Nodup := by
  have hmain : getCommitsForIncrement env n =
      parsedCommits out1 ++
        (parsedCommits out2).filter
          (fun c => c.hash ∉ (parsedCommits out1).map CommitData.hash) := by
    unfold getCommitsForIncrement
    simp only [h1, h2]
    rw [dedupCommits_eq, List.filterMap_append, firstSeenByHash_append]
    have hp1 : (logLines out1).filterMap parseLogLine = parsedCommits out1 := rfl
    have hp2 : (logLines out2).filterMap parseLogLine = parsedCommits out2 := rfl
    have e1 : firstSeenByHash [] ((logLines out1).filterMap parseLogLine) =
        parsedCommits out1 := by
      rw [hp1, firstSeenByHash_of_nodup hn1]
      simp
    rw [e1]
    refine congrArg _ ?_
    rw [hp2, List.append_nil, firstSeenByHash_of_nodup hn2]
  refine ⟨hmain, ?_⟩
  rw [hmain, List.map_append, List.nodup_append]
  refine ⟨hn1, ?_, ?_⟩
  · exact ((List.filter_sublist _).map CommitData.hash).nodup hn2
  · intro x hx1 hx2
    simp only [List.mem_map] at hx2
    obtain ⟨c, hc, rfl⟩ := hx2
    have h3 := List.of_mem_filter hc
    simp only [decide_eq_true_eq, List.mem_map] at h3
    simp only [List.mem_map] at hx1
    exact h3 hx1

/-- The environment of the C5 witness: two overlapping tag searches. -/
def envC5 : GitEnv :=
  { run := fun args =>
      if args = grepLogArgs ("INCREMENT ".data ++ pad4 5) then
        some "aaa|m1|d1\nbbb|m2|d2".data
      else if args = grepLogArgs ("increment_".data ++ pad4 5) then
        some "bbb|m2|d2\nccc|m3|d3".data
      else none }

/-- Witness for `commits_for_increment_dedup`: the hash `bbb` found by
both searches is returned once, in first-seen order. -/
theorem commits_for_increment_dedup_witness :
    (envC5.run (grepLogArgs ("INCREMENT ".data ++ pad4 5)) =
      some "aaa|m1|d1\nbbb|m2|d2".data) ∧
    (envC5.run (grepLogArgs ("increment_".data ++ pad4 5)) =
      some "bbb|m2|d2\nccc|m3|d3".data) ∧
    ((parsedCommits "aaa|m1|d1\nbbb|m2|d2".data).map CommitData.hash).Nodup ∧
    ((parsedCommits "bbb|m2|d2\nccc|m3|d3".data).map CommitData.hash).Nodup ∧
    (getCommitsForIncrement envC5 5 =
      parsedCommits "aaa|m1|d1\nbbb|m2|d2".data ++
        (parsedCommits "bbb|m2|d2\nccc|m3|d3".data).filter
          (fun c => c.hash ∉
            (parsedCommits "aaa|m1|d1\nbbb|m2|d2".data).map CommitData.hash) ∧
     ((getCommitsForIncrement envC5 5).map CommitData.hash).Nodup) :=
  ⟨by decide, by decide, by decide, by decide,
   commits_for_increment_dedup envC5 5 _ _ (by decide) (by decide)
     (by decide) (by decide)⟩

/-! ### Claim C6 — the verification prompt is effect-free -/

/-- C6: rendering the verification prompt leaves the increment file set
unchanged (its state-passing translation returns its input state, as does
the increment-prompt renderer); the rename instruction appears only as
text — the rendered prompt contains the `mv requirements/` instruction —
and `mark_done` is the only tracker operation that changes the state,
its change being exactly the todo→done rename. -/
theorem verification_prompt_effect_free (fs : TrackerFS) (file : ReqFile) :
    (formatVerificationPromptOp fs file).2 = fs ∧
    (formatIncrementPromptOp fs file).2 = fs ∧
    containsSub "mv requirements/".data (formatVerificationPromptOp fs file).1 = true ∧
    (∀ old newName fs2, markDone fs old = some (newName, fs2) →
      newName = doneNameOf old ∧ fsRename fs old (doneNameOf old) = some fs2) := by
  refine ⟨rfl, rfl, ?_, ?_⟩
  · have hsplit : ("    mv requirements/".data : Str) =
        "    ".data ++ "mv requirements/".data := by decide
    have hline : containsSub "mv requirements/".data
        ("    mv requirements/".data ++ file.name ++ " requirements/".data ++
          doneNameOf file.name) = true := by
      rw [hsplit]
      simp only [List.append_assoc]
      exact containsSub_append_right _ _ _ (containsSub_self_append _ _)
    show containsSub "mv requirements/".data
      (joinLines (formatVerificationPromptLines fs file)) = true
    refine containsSub_joinLines _ ?_ hline
    simp [formatVerificationPromptLines]
  · intro old newName fs2 h
    simp only [markDone] at h
    cases hr : fsRename fs old (doneNameOf old) with
    | none =>
      rw [hr] at h
      simp at h
    | some fs3 =>
      rw [hr] at h
      simp only [Option.map_some', Option.some.injEq, Prod.mk.injEq] at h
      exact ⟨h.1.symm, by rw [h.2]⟩

/-- Witness state for `verification_prompt_effect_free`. -/
def fsC6 : TrackerFS :=
  { requirements := [{ name := "increment_0001-todo-a.md".data, content := [] }],
    principles := [] }

/-- Witness file for `verification_prompt_effect_free`. -/
def fileC6 : ReqFile := { name := "increment_0001-todo-a.md".data, content := [] }

/-- The state after the witness rename. -/
def fsC6x : TrackerFS :=
  { requirements := [{ name := "increment_0001-done-a.md".data, content := [] }],
    principles := [] }

/-- Witness for `verification_prompt_effect_free`. -/
theorem verification_prompt_effect_free_witness :
    (formatVerificationPromptOp fsC6 fileC6).2 = fsC6 ∧
    (formatIncrementPromptOp fsC6 fileC6).2 = fsC6 ∧
    containsSub "mv requirements/".data (formatVerificationPromptOp fsC6 fileC6).1 = true ∧
    markDone fsC6 "increment_0001-todo-a.md".data =
      some ("increment_0001-done-a.md".data, fsC6x) ∧
    ("increment_0001-done-a.md".data : Str) =
      doneNameOf "increment_0001-todo-a.md".data :=
  ⟨(verification_prompt_effect_free fsC6 fileC6).1,
   (verification_prompt_effect_free fsC6 fileC6).2.1,
   (verification_prompt_effect_free fsC6 fileC6).2.2.1,
   by decide,
   ((verification_prompt_effect_free fsC6 fileC6).2.2.2
      "increment_0001-todo-a.md".data "increment_0001-done-a.md".data fsC6x
      (by decide)).1⟩

/-! ### Claim C7 — mark_done renaming (corrected) -/

/-- The naming-contract side conditions (spec section 6) shared by the
filename theorems: four ASCII digits, a uniform separator drawn from
`{-, _}`, and a non-empty, newline-free slug. -/
structure ContractParts (d1 d2 d3 d4 sep : Char) (slug : Str) : Prop where
  hd1 : d1.isDigit = true
  hd2 : d2.isDigit = true
  hd3 : d3.isDigit = true
  hd4 : d4.isDigit = true
  hsep : sep = '-' ∨ sep = '_'
  hslug : slug ≠ []
  hnl : slug.contains '\n' = false

/-- A contract filename including the `.md` extension. -/
def mkFileName (d1 d2 d3 d4 sep : Char) (status slug : Str) : Str :=
  mkStem d1 d2 d3 d4 sep status slug ++ ".md".data

theorem replaceFirst_skip {pat : Str} {c : Char} {cs : Str}
    (h : startsWith pat (c :: cs) = false) (sub : Str) :
    replaceFirst (c :: cs) pat sub = c :: replaceFirst cs pat sub := by
  simp [replaceFirst, h]

theorem replaceFirst_prefix_skip (pat sub : Str) :
    ∀ xs ys : Str, (∀ i, i < xs.length → startsWith pat (xs.drop i ++ ys) = false) →
      replaceFirst (xs ++ ys) pat sub = xs ++ replaceFirst ys pat sub := by
  intro xs
  induction xs with
  | nil => intro ys _; rfl
  | cons c cs ih =>
    intro ys h
    have h0 : startsWith pat (c :: (cs ++ ys)) = false := by
      simpa using h 0 (Nat.succ_pos _)
    rw [List.cons_append, replaceFirst_skip h0, ih ys fun i hi => by
      simpa using h (i + 1) (Nat.succ_lt_succ hi)]
    rfl

theorem replaceFirst_at_start (pat sub tail : Str) (h : pat ≠ []) :
    replaceFirst (pat ++ tail) pat sub = sub ++ tail := by
  cases pat with
  | nil => exact absurd rfl h
  | cons p ps =>
    have hs : startsWith (p :: ps) ((p :: ps) ++ tail) = true :=
      startsWith_self_append _ _
    rw [List.cons_append, replaceFirst, if_pos (by simpa using hs)]
    have : ((p :: ps) ++ tail).drop (p :: ps).length = tail := List.drop_left _ _
    simp only [List.cons_append] at this
    rw [this]

/-- C7 counterexample: for the contract filename
`increment_0001_todo_x-todo-y.md` (underscore separator, slug
`x-todo-y`), `mark_done` renames to `increment_0001_todo_x-done-y.md`:
the `-todo-` occurrence inside the slug is replaced instead of the
status token, which still reads `todo`. -/
theorem markDone_separator_counterexample :
    doneNameOf "increment_0001_todo_x-todo-y.md".data =
      "increment_0001_todo_x-done-y.md".data ∧
    doneNameOf "increment_0001_todo_x-todo-y.md".data ≠
      "increment_0001_done_x-todo-y.md".data ∧
    hasTodoTok (stemOf (doneNameOf "increment_0001_todo_x-todo-y.md".data)) = true := by
  refine ⟨by decide, by decide, by decide⟩

/-- Rewriting a contract filename around its status token. -/
theorem mkFileName_split (d1 d2 d3 d4 sep : Char) (status slug : Str) :
    mkFileName d1 d2 d3 d4 sep status slug =
      ("increment_".data ++ [d1, d2, d3, d4]) ++
        ((sep :: status) ++ (sep :: (slug ++ ".md".data))) := by
  simp [mkFileName, mkStem]

theorem mkFileName_todo_ne_done (d1 d2 d3 d4 sep : Char) (slug : Str) :
    mkFileName d1 d2 d3 d4 sep "todo".data slug ≠
      mkFileName d1 d2 d3 d4 sep "done".data slug := by
  intro h
  rw [mkFileName_split, mkFileName_split] at h
  have h2 := List.append_cancel_left h
  simp at h2

/-- C7 (amended): for a contract filename, `mark_done` renames the todo
status token to done preserving the separator style, provided an
underscore-separated name does not also contain the hyphen token
`-todo-` inside its slug (the code checks `-todo-` first and would
replace that occurrence instead); the rename is atomic from the caller's
point of view: either the call succeeds — the old name is gone, the new
done-name exists, every other file is preserved — or the file is absent
and the operation fails entirely with the state unchanged. -/
theorem mark_done_renames_atomically (fs : TrackerFS)
    (d1 d2 d3 d4 sep : Char) (slug : Str)
    (hparts : ContractParts d1 d2 d3 d4 sep slug)
    (hclean : sep = '_' →
      containsSub "-todo-".data (mkFileName d1 d2 d3 d4 sep "todo".data slug) = false) :
    doneNameOf (mkFileName d1 d2 d3 d4 sep "todo".data slug) =
      mkFileName d1 d2 d3 d4 sep "done".data slug ∧
    (mkFileName d1 d2 d3 d4 sep "todo".data slug ∈
        fs.requirements.map ReqFile.name →
      ∃ fs2, markDone fs (mkFileName d1 d2 d3 d4 sep "todo".data slug) =
          some (mkFileName d1 d2 d3 d4 sep "done".data slug, fs2) ∧
        mkFileName d1 d2 d3 d4 sep "done".data slug ∈
          fs2.requirements.map ReqFile.name ∧
        mkFileName d1 d2 d3 d4 sep "todo".data slug ∉
          fs2.requirements.map ReqFile.name ∧
        ∀ g ∈ fs.requirements,
          g.name ≠ mkFileName d1 d2 d3 d4 sep "todo".data slug →
          g.name ≠ mkFileName d1 d2 d3 d4 sep "done".data slug →
          g ∈ fs2.requirements) ∧
    (mkFileName d1 d2 d3 d4 sep "todo".data slug ∉
        fs.requirements.map ReqFile.name →
      markDone fs (mkFileName d1 d2 d3 d4 sep "todo".data slug) = none) := by
  obtain ⟨-, h1t, -, -, h1dash, h1u⟩ := digit_facts hparts.hd1
  obtain ⟨-, -, -, -, h2dash, h2u⟩ := digit_facts hparts.hd2
  obtain ⟨-, -, -, -, h3dash, h3u⟩ := digit_facts hparts.hd3
  obtain ⟨-, -, -, -, h4dash, h4u⟩ := digit_facts hparts.hd4
  have hname : doneNameOf (mkFileName d1 d2 d3 d4 sep "todo".data slug) =
      mkFileName d1 d2 d3 d4 sep "done".data slug := by
    rcases hparts.hsep with rfl | rfl
    · -- hyphen separator: the "-todo-" branch is taken and the first
      -- occurrence is the status token
      have hpat : ("-todo-".data : Str) = ['-', 't', 'o', 'd', 'o', '-'] := rfl
      have hshape : mkFileName d1 d2 d3 d4 '-' "todo".data slug =
          ['i', 'n', 'c', 'r', 'e', 'm', 'e', 'n', 't', '_', d1, d2, d3, d4] ++
            ("-todo-".data ++ (slug ++ ".md".data)) := rfl
      have hside : ∀ i,
          i < (['i', 'n', 'c', 'r', 'e', 'm', 'e', 'n', 't', '_', d1, d2, d3, d4] : Str).length →
          startsWith "-todo-".data
            ((['i', 'n', 'c', 'r', 'e', 'm', 'e', 'n', 't', '_', d1, d2, d3, d4] : Str).drop i ++
              ("-todo-".data ++ (slug ++ ".md".data))) = false := by
        intro i hi
        simp only [List.length_cons, List.length_nil] at hi
        interval_cases i <;>
          simp [startsWith, hpat, h1dash.symm, h2dash.symm, h3dash.symm, h4dash.symm]
      have hcont : containsSub "-todo-".data
          (mkFileName d1 d2 d3 d4 '-' "todo".data slug) = true := by
        rw [hshape]
        exact containsSub_append_right _ _ _ (containsSub_self_append _ _)
      rw [doneNameOf, if_pos hcont, hshape,
        replaceFirst_prefix_skip _ _ _ _ hside,
        replaceFirst_at_start _ _ _ (by decide)]
      rfl
    · -- underscore separator: "-todo-" is absent by hypothesis, so the
      -- "_todo_" branch is taken
      have hpat : ("_todo_".data : Str) = ['_', 't', 'o', 'd', 'o', '_'] := rfl
      have hshape : mkFileName d1 d2 d3 d4 '_' "todo".data slug =
          ['i', 'n', 'c', 'r', 'e', 'm', 'e', 'n', 't', '_', d1, d2, d3, d4] ++
            ("_todo_".data ++ (slug ++ ".md".data)) := rfl
      have hside : ∀ i,
          i < (['i', 'n', 'c', 'r', 'e', 'm', 'e', 'n', 't', '_', d1, d2, d3, d4] : Str).length →
          startsWith "_todo_".data
            ((['i', 'n', 'c', 'r', 'e', 'm', 'e', 'n', 't', '_', d1, d2, d3, d4] : Str).drop i ++
              ("_todo_".data ++ (slug ++ ".md".data))) = false := by
        intro i hi
        simp only [List.length_cons, List.length_nil] at hi
        interval_cases i <;>
          simp [startsWith, hpat, h1t.symm, h1u.symm, h2u.symm, h3u.symm, h4u.symm]
      rw [doneNameOf, if_neg (by simp [hclean rfl]), hshape,
        replaceFirst_prefix_skip _ _ _ _ hside,
        replaceFirst_at_start _ _ _ (by decide)]
      rfl
  refine ⟨hname, ?_, ?_⟩
  · intro hmem
    simp only [List.mem_map] at hmem
    obtain ⟨f0, hf0, hf0n⟩ := hmem
    have hfind : (fs.requirements.find?
        (fun f => f.name == mkFileName d1 d2 d3 d4 sep "todo".data slug)).isSome := by
      rw [List.find?_isSome]
      exact ⟨f0, hf0, by simp [hf0n]⟩
    obtain ⟨f1, hf1⟩ := Option.isSome_iff_exists.mp hfind
    have hmd : markDone fs (mkFileName d1 d2 d3 d4 sep "todo".data slug) =
        some (mkFileName d1 d2 d3 d4 sep "done".data slug,
          { fs with requirements :=
              { name := mkFileName d1 d2 d3 d4 sep "done".data slug,
                content := f1.content } ::
                fs.requirements.filter (fun g =>
                  g.name != mkFileName d1 d2 d3 d4 sep "todo".data slug &&
                  g.name != mkFileName d1 d2 d3 d4 sep "done".data slug) }) := by
      simp only [markDone, hname, fsRename, hf1]
      rfl
    refine ⟨_, hmd, ?_, ?_, ?_⟩
    · simp
    · intro hcontra
      simp only [List.mem_map] at hcontra
      obtain ⟨g, hg, hgn⟩ := hcontra
      rcases List.mem_cons.mp hg with rfl | hgtail
      · exact mkFileName_todo_ne_done d1 d2 d3 d4 sep slug hgn.symm
      · have hgf := List.mem_filter.mp hgtail
        simp only [Bool.and_eq_true, bne_iff_ne, ne_eq] at hgf
        exact hgf.2.1 hgn
    · intro g hg hne1 hne2
      simp only [List.mem_cons]
      right
      exact List.mem_filter.mpr ⟨hg, by simp [hne1, hne2]⟩
  · intro hmem
    have hfind : fs.requirements.find?
        (fun f => f.name == mkFileName d1 d2 d3 d4 sep "todo".data slug) = none := by
      rw [List.find?_eq_none]
      intro f hf hc
      simp only [beq_iff_eq] at hc
      exact hmem (List.mem_map.mpr ⟨f, hf, hc⟩)
    simp [markDone, fsRename, hfind]

/-- Witness state for `mark_done_renames_atomically`. -/
def fsC7 : TrackerFS :=
  { requirements := [{ name := "increment_0007-todo-fix-ui.md".data, content := [] },
                     { name := "increment_0006-done-setup.md".data, content := [] }],
    principles := [] }

/-- Witness for `mark_done_renames_atomically`: marking
`increment_0007-todo-fix-ui.md` done renames it, preserving the hyphen
separator style. -/
theorem mark_done_renames_atomically_witness :
    ("increment_0007-todo-fix-ui.md".data : Str) =
      mkFileName '0' '0' '0' '7' '-' "todo".data "fix-ui".data ∧
    doneNameOf (mkFileName '0' '0' '0' '7' '-' "todo".data "fix-ui".data) =
      mkFileName '0' '0' '0' '7' '-' "done".data "fix-ui".data ∧
    (∃ fs2, markDone fsC7 (mkFileName '0' '0' '0' '7' '-' "todo".data "fix-ui".data) =
        some (mkFileName '0' '0' '0' '7' '-' "done".data "fix-ui".data, fs2) ∧
      mkFileName '0' '0' '0' '7' '-' "done".data "fix-ui".data ∈
        fs2.requirements.map ReqFile.name ∧
      mkFileName '0' '0' '0' '7' '-' "todo".data "fix-ui".data ∉
        fs2.requirements.map ReqFile.name ∧
      ∀ g ∈ fsC7.requirements,
        g.name ≠ mkFileName '0' '0' '0' '7' '-' "todo".data "fix-ui".data →
        g.name ≠ mkFileName '0' '0' '0' '7' '-' "done".data "fix-ui".data →
        g ∈ fs2.requirements) :=
  have h := mark_done_renames_atomically fsC7 '0' '0' '0' '7' '-' "fix-ui".data
    ⟨by decide, by decide, by decide, by decide, Or.inl rfl, by decide, by decide⟩
    (fun hs => absurd hs (by decide))
  ⟨by decide, h.1, h.2.1 (by decide)⟩

/-! ### Claim C1 — filename field recovery (corrected) -/

/-- C1 counterexample: the contract stem
`increment_0001-done-fix_todo_list` (hyphen separator, status `done`,
non-empty slug `fix_todo_list`) parses with status `todo`: the `_todo_`
token inside the slug matches the status regex `[-_]todo[-_]`. -/
theorem parse_filename_counterexample :
    "increment_0001-done-fix_todo_list".data =
      mkStem '0' '0' '0' '1' '-' "done".data "fix_todo_list".data ∧
    parseStatus "increment_0001-done-fix_todo_list".data = "todo".data ∧
    parseStatus "increment_0001-done-fix_todo_list".data ≠ "done".data :=
  ⟨by decide, by decide, by decide⟩

theorem hasTodoTok_append_right (xs ys : Str) (h : hasTodoTok ys = true) :
    hasTodoTok (xs ++ ys) = true := by
  induction xs with
  | nil => simpa using h
  | cons c cs ih => simp [hasTodoTok, ih]

theorem takeWhile_ne_nl {slug : Str} (h : slug.contains '\n' = false) :
    slug.takeWhile (fun ch => ch ≠ '\n') = slug := by
  induction slug with
  | nil => rfl
  | cons c cs ih =>
    simp only [List.contains_cons, Bool.or_eq_false_iff] at h
    have hc : c ≠ '\n' := by
      intro he
      rw [he] at h
      simp at h
    rw [List.takeWhile_cons, if_pos (by simp [hc]), ih h.2]

theorem takeWhile_digits4 {d1 d2 d3 d4 sep : Char} (h1 : d1.isDigit = true)
    (h2 : d2.isDigit = true) (h3 : d3.isDigit = true) (h4 : d4.isDigit = true)
    (hs : sep.isDigit = false) (tl : Str) :
    List.takeWhile Char.isDigit (d1 :: d2 :: d3 :: d4 :: sep :: tl) =
      [d1, d2, d3, d4] := by
  rw [List.takeWhile_cons, if_pos h1, List.takeWhile_cons, if_pos h2,
    List.takeWhile_cons, if_pos h3, List.takeWhile_cons, if_pos h4,
    List.takeWhile_cons, if_neg (by simp [hs])]

theorem searchIncrementDigits_found {c : Char} {cs ds : Str}
    (h : matchIncrementAt (c :: cs) = some ds) :
    searchIncrementDigits (c :: cs) = some ds := by
  rw [searchIncrementDigits, h]

theorem searchShortDesc_step {c : Char} {cs : Str}
    (h : matchStatusSlugAt (c :: cs) = none) :
    searchShortDesc (c :: cs) = searchShortDesc cs := by
  rw [searchShortDesc, h]

theorem matchStatusSlugAt_skip (s : Str)
    (h : (∃ d tl, d ≠ 't' ∧ d ≠ 'd' ∧ s = '_' :: d :: tl) ∨
         (∃ c tl, isSep c = false ∧ s = c :: tl)) :
    matchStatusSlugAt s = none := by
  rcases h with ⟨d, tl, hdt, hdd, rfl⟩ | ⟨c, tl, hc, rfl⟩
  · cases tl with
    | nil => rfl
    | cons x xs =>
      cases xs with
      | nil => rfl
      | cons y ys =>
        cases ys with
        | nil => rfl
        | cons z zs =>
          cases zs with
          | nil => rfl
          | cons w ws => simp [matchStatusSlugAt, hdt, hdd]
  · cases tl with
    | nil => rfl
    | cons a as =>
      cases as with
      | nil => rfl
      | cons b bs =>
        cases bs with
        | nil => rfl
        | cons e es =>
          cases es with
          | nil => rfl
          | cons f fs =>
            cases fs with
            | nil => rfl
            | cons g gs => simp [matchStatusSlugAt, hc]

theorem matchStatusSlugAt_status (sep : Char) (status slug : Str)
    (hseps : isSep sep = true)
    (hst : status = "todo".data ∨ status = "done".data)
    (hnl : slug.contains '\n' = false) (hne : slug ≠ []) :
    matchStatusSlugAt (sep :: (status ++ sep :: slug)) = some slug := by
  have htake := takeWhile_ne_nl hnl
  have hemp : slug.isEmpty = false := by
    cases slug with
    | nil => exact absurd rfl hne
    | cons c cs => rfl
  rcases hst with rfl | rfl <;>
  · show matchStatusSlugAt (sep :: _ :: _ :: _ :: _ :: sep :: slug) = some slug
    simp only [matchStatusSlugAt, hseps, htake, List.drop_length, hemp]
    simp

/-- The leftmost match of the short-description regex on a contract stem
is the one at the status token. -/
theorem searchShortDesc_mkStem {d1 d2 d3 d4 : Char} {g : Str} (sep : Char)
    (tail : Str)
    (h1s : isSep d1 = false) (h1t : d1 ≠ 't') (h1d : d1 ≠ 'd')
    (h2s : isSep d2 = false) (h3s : isSep d3 = false) (h4s : isSep d4 = false)
    (hm : matchStatusSlugAt (sep :: tail) = some g) :
    searchShortDesc ('i' :: 'n' :: 'c' :: 'r' :: 'e' :: 'm' :: 'e' :: 'n' ::
      't' :: '_' :: d1 :: d2 :: d3 :: d4 :: sep :: tail) = some g := by
  rw [searchShortDesc_step (matchStatusSlugAt_skip _ (Or.inr ⟨'i', _, by decide, rfl⟩)),
    searchShortDesc_step (matchStatusSlugAt_skip _ (Or.inr ⟨'n', _, by decide, rfl⟩)),
    searchShortDesc_step (matchStatusSlugAt_skip _ (Or.inr ⟨'c', _, by decide, rfl⟩)),
    searchShortDesc_step (matchStatusSlugAt_skip _ (Or.inr ⟨'r', _, by decide, rfl⟩)),
    searchShortDesc_step (matchStatusSlugAt_skip _ (Or.inr ⟨'e', _, by decide, rfl⟩)),
    searchShortDesc_step (matchStatusSlugAt_skip _ (Or.inr ⟨'m', _, by decide, rfl⟩)),
    searchShortDesc_step (matchStatusSlugAt_skip _ (Or.inr ⟨'e', _, by decide, rfl⟩)),
    searchShortDesc_step (matchStatusSlugAt_skip _ (Or.inr ⟨'n', _, by decide, rfl⟩)),
    searchShortDesc_step (matchStatusSlugAt_skip _ (Or.inr ⟨'t', _, by decide, rfl⟩)),
    searchShortDesc_step (matchStatusSlugAt_skip _ (Or.inl ⟨d1, _, h1t, h1d, rfl⟩)),
    searchShortDesc_step (matchStatusSlugAt_skip _ (Or.inr ⟨d1, _, h1s, rfl⟩)),
    searchShortDesc_step (matchStatusSlugAt_skip _ (Or.inr ⟨d2, _, h2s, rfl⟩)),
    searchShortDesc_step (matchStatusSlugAt_skip _ (Or.inr ⟨d3, _, h3s, rfl⟩)),
    searchShortDesc_step (matchStatusSlugAt_skip _ (Or.inr ⟨d4, _, h4s, rfl⟩)),
    searchShortDesc, hm]

/-- The cons normal form of a contract stem. -/
theorem mkStem_eq_cons (d1 d2 d3 d4 sep : Char) (status slug : Str) :
    mkStem d1 d2 d3 d4 sep status slug =
      'i' :: 'n' :: 'c' :: 'r' :: 'e' :: 'm' :: 'e' :: 'n' :: 't' :: '_' ::
        d1 :: d2 :: d3 :: d4 :: sep :: (status ++ sep :: slug) := by
  rw [mkStem, show ("increment_".data : Str) =
    'i' :: 'n' :: 'c' :: 'r' :: 'e' :: 'm' :: 'e' :: 'n' :: 't' :: '_' :: [] from rfl]
  simp

/-- C1 (amended): for every contract filename stem, `parse_increment`
recovers the number (the numeric value of the four digits) and the slug
exactly, regardless of the separator; the status is recovered exactly as
well, provided that when the status is `done` no separator-delimited
`todo` token occurs in the stem (the status regex scans the whole name,
so such a token inside the slug of a done-file is reported as `todo`). -/
theorem parse_filename_recovers_fields
    (d1 d2 d3 d4 sep : Char) (status slug : Str)
    (hparts : ContractParts d1 d2 d3 d4 sep slug)
    (hstatus : status = "todo".data ∨ status = "done".data)
    (hdone : status = "done".data →
      hasTodoTok (mkStem d1 d2 d3 d4 sep status slug) = false) :
    parseNumber (mkStem d1 d2 d3 d4 sep status slug) =
      1000 * digitVal d1 + 100 * digitVal d2 + 10 * digitVal d3 + digitVal d4 ∧
    parseStatus (mkStem d1 d2 d3 d4 sep status slug) = status ∧
    parseShortDesc (mkStem d1 d2 d3 d4 sep status slug) = slug := by
  obtain ⟨h1s, h1t, h1d, -, -, -⟩ := digit_facts hparts.hd1
  obtain ⟨h2s, -, -, -, -, -⟩ := digit_facts hparts.hd2
  obtain ⟨h3s, -, -, -, -, -⟩ := digit_facts hparts.hd3
  obtain ⟨h4s, -, -, -, -, -⟩ := digit_facts hparts.hd4
  have hsepd : sep.isDigit = false := by
    rcases hparts.hsep with rfl | rfl <;> decide
  have hseps : isSep sep = true := by
    rcases hparts.hsep with rfl | rfl <;> decide
  refine ⟨?_, ?_, ?_⟩
  · -- number: the leftmost `increment_(\d+)` match is at position 0 and
    -- its greedy digit run is exactly the four digit characters
    have hmatch : matchIncrementAt (mkStem d1 d2 d3 d4 sep status slug) =
        some [d1, d2, d3, d4] := by
      unfold matchIncrementAt
      rw [if_pos (by rw [mkStem]; exact startsWith_self_append "increment_".data _)]
      have hdrop : (mkStem d1 d2 d3 d4 sep status slug).drop 10 =
          d1 :: d2 :: d3 :: d4 :: sep :: (status ++ sep :: slug) := by
        rw [mkStem_eq_cons]
        rfl
      rw [hdrop, takeWhile_digits4 hparts.hd1 hparts.hd2 hparts.hd3 hparts.hd4 hsepd]
      simp
    rw [parseNumber, mkStem_eq_cons,
      searchIncrementDigits_found (by rw [← mkStem_eq_cons]; exact hmatch)]
    simp only [natOfDigits, List.foldl_cons, List.foldl_nil]
    ring
  · -- status
    rcases hstatus with rfl | rfl
    · have hsplit : mkStem d1 d2 d3 d4 sep "todo".data slug =
          ('i' :: 'n' :: 'c' :: 'r' :: 'e' :: 'm' :: 'e' :: 'n' :: 't' :: '_' ::
            d1 :: d2 :: d3 :: [d4]) ++
            (sep :: 't' :: 'o' :: 'd' :: 'o' :: sep :: slug) := by
        rw [mkStem_eq_cons]
        rfl
      have htok : hasTodoTok (sep :: 't' :: 'o' :: 'd' :: 'o' :: sep :: slug) = true := by
        simp [hasTodoTok, matchTodoTokAt, hseps]
      rw [parseStatus, if_pos (by rw [hsplit]; exact hasTodoTok_append_right _ _ htok)]
    · rw [parseStatus, if_neg (by simp [hdone rfl])]
  · -- short_desc: the leftmost status-token match starts at position 14
    rw [parseShortDesc, mkStem_eq_cons,
      searchShortDesc_mkStem sep _ h1s h1t h1d h2s h3s h4s
        (matchStatusSlugAt_status sep status slug hseps hstatus hparts.hnl hparts.hslug)]
    rfl

/-- Witness for `parse_filename_recovers_fields` at
`increment_0012_todo_add-metrics` (underscore separator). -/
theorem parse_filename_recovers_fields_witness :
    ("increment_0012_todo_add-metrics".data : Str) =
      mkStem '0' '0' '1' '2' '_' "todo".data "add-metrics".data ∧
    parseNumber (mkStem '0' '0' '1' '2' '_' "todo".data "add-metrics".data) =
      1000 * digitVal '0' + 100 * digitVal '0' + 10 * digitVal '1' + digitVal '2' ∧
    parseStatus (mkStem '0' '0' '1' '2' '_' "todo".data "add-metrics".data) =
      "todo".data ∧
    parseShortDesc (mkStem '0' '0' '1' '2' '_' "todo".data "add-metrics".data) =
      "add-metrics".data :=
  have h := parse_filename_recovers_fields '0' '0' '1' '2' '_'
    "todo".data "add-metrics".data
    ⟨by decide, by decide, by decide, by decide, Or.inr rfl, by decide, by decide⟩
    (Or.inl rfl)
    (fun hs => absurd hs (by decide))
  ⟨by decide, h.1, h.2.1, h.2.2⟩

/-! ### Claim C4 — acceptance-criteria cleaning (corrected) -/

/-- C4 counterexample: in the strict pass (`## Acceptance Criteria`
section) a numbered-list prefix is NOT stripped — the criterion line
`1. foo` is kept verbatim — while the flexible pass (bold-labelled
section) strips it. -/
theorem strict_criteria_numbered_counterexample :
    (parseIncrement "## Acceptance Criteria\n1. foo".data
        "increment_0001-todo-x".data).acceptance_criteria = ["1. foo".data] ∧
    (parseIncrement "**Acceptance Criteria:**\n1. foo".data
        "increment_0001-todo-x".data).acceptance_criteria = ["foo".data] ∧
    ("1. foo".data : Str) ≠ "foo".data := by
  refine ⟨by decide, by decide, by decide⟩

/-- Spec-side (amended claim C4): per-line cleaning that applies all
three strips in order — checkbox marker, bare list marker, numbered-list
prefix — to the stripped line, then strips. -/
def specCleanAll (line : Str) : Str :=
  stripWS (subNumbered (subDash (subCheckbox (stripWS line))))

/-- Spec-side (amended claim C4): per-line cleaning that applies only the
checkbox-marker and bare-list-marker strips. -/
def specCleanTwo (line : Str) : Str :=
  stripWS (subDash (subCheckbox (stripWS line)))

theorem flexCriteriaLines_eq (ls : List Str) :
    flexCriteriaLines ls =
      (ls.map specCleanAll).filter (fun c => !c.isEmpty) := by
  induction ls with
  | nil => rfl
  | cons line rest ih =>
    by_cases hl : (stripWS line).isEmpty = true
    · have hnil : stripWS line = [] := by
        cases h : stripWS line with
        | nil => rfl
        | cons c cs => rw [h] at hl; simp at hl
      have hclean : specCleanAll line = [] := by
        unfold specCleanAll
        rw [hnil]
        rfl
      simp only [flexCriteriaLines, hl, if_true, List.map_cons, List.filter_cons]
      rw [if_neg (by simp [hclean]), ih]
    · simp only [flexCriteriaLines, hl, Bool.false_eq_true, if_false,
        List.map_cons, List.filter_cons]
      by_cases hc :
          (stripWS (subNumbered (subDash (subCheckbox (stripWS line))))).isEmpty = true
      · rw [if_pos hc, if_neg (by simp [specCleanAll, hc]), ih]
      · rw [if_neg hc, if_pos (by simp [specCleanAll, hc]), ih]
        rfl

theorem strictCriteriaLines_eq (ls : List Str) :
    strictCriteriaLines ls =
      (ls.map specCleanTwo).filter (fun c => !c.isEmpty) := by
  induction ls with
  | nil => rfl
  | cons line rest ih =>
    simp only [strictCriteriaLines, List.map_cons, List.filter_cons]
    by_cases hc : (stripWS (subDash (subCheckbox (stripWS line)))).isEmpty = true
    · rw [if_pos hc, if_neg (by simp [specCleanTwo, hc]), ih]
    · rw [if_neg hc, if_pos (by simp [specCleanTwo, hc]), ih]
      rfl

/-- C4 (amended): the flexible pass cleans every criterion line by
applying all three strips in order — leading checkbox marker, leading
bare list marker, leading numbered-list prefix — regardless of which
markers were present; the strict pass applies only the checkbox and
bare-list strips, so a numbered-list prefix survives strict cleaning. -/
theorem criteria_cleaning_passes (body : Str) :
    flexCriteria body =
      ((splitlines (stripWS body)).map specCleanAll).filter (fun c => !c.isEmpty) ∧
    strictCriteria body =
      ((splitlines (stripWS body)).map specCleanTwo).filter (fun c => !c.isEmpty) ∧
    specCleanAll "1. foo".data = "foo".data ∧
    specCleanTwo "1. foo".data = "1. foo".data :=
  ⟨flexCriteriaLines_eq _, strictCriteriaLines_eq _, by decide, by decide⟩

/-! ### Claim C3 — the parse-completeness gate -/

/-- C3: the parse-completeness flag equals (description stripped of
whitespace is non-empty); `format_increment_prompt` renders the
self-inspection prompt exactly when the flag is false; when additionally
the raw content is empty after stripping, the self-inspection prompt
takes the empty-file branch. -/
theorem parse_complete_gates_prompt (fs : TrackerFS) (file : ReqFile) :
    (isParseComplete (parseIncrement file.content (stemOf file.name)) =
      !(stripWS (parseIncrement file.content (stemOf file.name)).description).isEmpty) ∧
    (isParseComplete (parseIncrement file.content (stemOf file.name)) = false →
      formatIncrementPromptLines fs file =
        formatSelfInspectionPromptLines fs file.name
          (parseIncrement file.content (stemOf file.name))) ∧
    (isParseComplete (parseIncrement file.content (stemOf file.name)) = true →
      formatIncrementPromptLines fs file ≠
        formatSelfInspectionPromptLines fs file.name
          (parseIncrement file.content (stemOf file.name))) ∧
    (isParseComplete (parseIncrement file.content (stemOf file.name)) = false →
      stripWS file.content = [] →
      formatIncrementPromptLines fs file =
        selfInspectionHeaderLines fs file.name
            (parseIncrement file.content (stemOf file.name)) ++
          selfInspectionEmptyLines ++
          selfInspectionWorkflowLines
            (parseIncrement file.content (stemOf file.name))) := by
  refine ⟨?_, ?_, ?_, ?_⟩
  · cases h : (stripWS (parseIncrement file.content (stemOf file.name)).description).isEmpty <;>
      simp [isParseComplete, h]
  · intro h
    simp only [formatIncrementPromptLines]
    rw [if_pos (by simp [h])]
  · intro h hcontra
    simp only [formatIncrementPromptLines] at hcontra
    rw [if_neg (by simp [h])] at hcontra
    have h2 : (List.drop 5 (normalPromptLines fs file.name
        (parseIncrement file.content (stemOf file.name)))).head? = some eq70 := rfl
    have h3 : (List.drop 5 (formatSelfInspectionPromptLines fs file.name
        (parseIncrement file.content (stemOf file.name)))).head? = some ([] : Str) := rfl
    have h4 := congrArg (fun l => (List.drop 5 l).head?) hcontra
    simp only [h2, h3, Option.some.injEq] at h4
    have : eq70 ≠ ([] : Str) := by decide
    exact this h4
  · intro h hstrip
    simp only [formatIncrementPromptLines]
    rw [if_pos (by simp [h]), formatSelfInspectionPromptLines,
      if_pos (by
        rw [show (parseIncrement file.content (stemOf file.name)).raw_content =
          file.content from rfl, hstrip]
        rfl)]

/-- Witness tracker state for `parse_complete_gates_prompt`. -/
def fsC3 : TrackerFS :=
  { requirements := [{ name := "increment_0001_todo_a.md".data, content := [] }],
    principles := [] }

/-- Witness empty increment file. -/
def fileC3a : ReqFile := { name := "increment_0001_todo_a.md".data, content := [] }

/-- Witness parse-complete increment file. -/
def fileC3b : ReqFile :=
  { name := "increment_0002_todo_b.md".data,
    content := "# T\n\n## Description\nBody text.\n".data }

/-- Witness for `parse_complete_gates_prompt`: the empty file routes to
the empty-file self-inspection branch; the well-formed file does not
render the self-inspection prompt. -/
theorem parse_complete_gates_prompt_witness :
    isParseComplete (parseIncrement fileC3a.content (stemOf fileC3a.name)) = false ∧
    formatIncrementPromptLines fsC3 fileC3a =
      formatSelfInspectionPromptLines fsC3 fileC3a.name
        (parseIncrement fileC3a.content (stemOf fileC3a.name)) ∧
    formatIncrementPromptLines fsC3 fileC3a =
      selfInspectionHeaderLines fsC3 fileC3a.name
          (parseIncrement fileC3a.content (stemOf fileC3a.name)) ++
        selfInspectionEmptyLines ++
        selfInspectionWorkflowLines
          (parseIncrement fileC3a.content (stemOf fileC3a.name)) ∧
    isParseComplete (parseIncrement fileC3b.content (stemOf fileC3b.name)) = true ∧
    formatIncrementPromptLines fsC3 fileC3b ≠
      formatSelfInspectionPromptLines fsC3 fileC3b.name
        (parseIncrement fileC3b.content (stemOf fileC3b.name)) :=
  ⟨by decide,
   (parse_complete_gates_prompt fsC3 fileC3a).2.1 (by decide),
   (parse_complete_gates_prompt fsC3 fileC3a).2.2.2 (by decide) (by decide),
   by decide,
   (parse_complete_gates_prompt fsC3 fileC3b).2.2.1 (by decide)⟩

/-! ### Claim C9 — revert-from enumeration (corrected) -/

theorem startsWith_take_of_append {pat lit t : Str}
    (h : startsWith pat (lit ++ t) = true) :
    startsWith (pat.take lit.length) lit = true := by
  induction pat generalizing lit with
  | nil => cases lit <;> rfl
  | cons p ps ih =>
    cases lit with
    | nil => rfl
    | cons c cs =>
      simp only [List.cons_append, startsWith, Bool.and_eq_true] at h
      simp only [List.length_cons, List.take_succ_cons, startsWith, Bool.and_eq_true]
      exact ⟨h.1, ih h.2⟩

theorem not_sw1 {pat lit : Str} (rest : Str)
    (h : startsWith (pat.take lit.length) lit = false) :
    startsWith pat (lit ++ rest) = false := by
  cases hsw : startsWith pat (lit ++ rest) with
  | false => rfl
  | true => exact absurd (startsWith_take_of_append hsw) (by simp [h])

theorem not_sw3 {pat lit : Str} (a b c : Str)
    (h : startsWith (pat.take lit.length) lit = false) :
    startsWith pat (lit ++ a ++ b ++ c) = false := by
  rw [List.append_assoc, List.append_assoc]
  exact not_sw1 _ h

theorem not_sw4 {pat lit : Str} (a b c d : Str)
    (h : startsWith (pat.take lit.length) lit = false) :
    startsWith pat (lit ++ a ++ b ++ c ++ d) = false := by
  rw [List.append_assoc, List.append_assoc, List.append_assoc]
  exact not_sw1 _ h

theorem sw3_self (pat a b c : Str) :
    startsWith pat (pat ++ a ++ b ++ c) = true := by
  rw [List.append_assoc, List.append_assoc]
  exact startsWith_self_append _ _

theorem filter_cons_false {α : Type} {p : α → Bool} {x : α} (l : List α)
    (hx : p x = false) : (x :: l).filter p = l.filter p := by
  simp [List.filter_cons, hx]

theorem filter_cons_true {α : Type} {p : α → Bool} {x : α} (l : List α)
    (hx : p x = true) : (x :: l).filter p = x :: l.filter p := by
  simp [List.filter_cons, hx]

theorem flatMap_singleton_map {α β : Type} (f : α → β) (l : List α) :
    (l.flatMap fun x => [f x]) = l.map f := by
  induction l with
  | nil => rfl
  | cons x xs ih => simp [ih]

/-- Only the header line of one revert block begins with
`"  INCREMENT "`. -/
theorem incRevertBlock_filter (fs : TrackerFS) (env : GitEnv) (num : Nat) :
    (incRevertBlock fs env num).filter (fun l => startsWith "  INCREMENT ".data l) =
      ["  INCREMENT ".data ++ pad4 num ++ ": ".data ++ revertTitleOf fs num] := by
  simp only [incRevertBlock]
  rw [List.cons_append, filter_cons_true _ (sw3_self _ _ _ _), List.filter_append]
  have hnil : List.filter (fun l => startsWith "  INCREMENT ".data l) [([] : Str)] = [] := by
    rw [filter_cons_false _ (by decide)]
    rfl
  rw [hnil]
  by_cases hc : (getCommitsForIncrement env num).isEmpty = true
  · rw [if_pos hc, filter_cons_false _ (by decide)]
    rfl
  · rw [if_neg hc, List.filter_eq_nil_iff.mpr ?_]
    · rfl
    · intro a ha
      simp only [List.mem_map] at ha
      obtain ⟨cm, -, rfl⟩ := ha
      simp [startsWith]

theorem descRange_pairwise (a b : Nat) : (descRange a b).Pairwise (· > ·) := by
  rw [descRange, List.pairwise_reverse]
  simpa using List.pairwise_lt_range' b (a + 1 - b)

theorem descRange_head_last {a b : Nat} (h : b ≤ a) :
    (descRange a b).head? = some a ∧ (descRange a b).getLast? = some b := by
  have hn : a + 1 - b = (a - b) + 1 := by omega
  constructor
  · rw [descRange, List.head?_reverse, hn, List.range'_concat, List.getLast?_concat]
    simp
    omega
  · rw [descRange, List.getLast?_reverse, hn, List.range'_succ]
    rfl

/-- C9 (amended): `format_revert_from_prompt(fromNumber)` enumerates
exactly the increments from `fromNumber` down to the computed lower
bound, inclusive and strictly descending, one header (with the
increment's commits or a no-commits line) per number; the lower bound is
the number of the current (lowest name-sorted) Todo increment provided
that number is nonzero — the code uses 0 as the no-Todo sentinel, so a
Todo increment numbered 0000 is treated as if no Todo remained and the
last Done increment is used instead. -/
theorem revert_from_enumerates (fs : TrackerFS) (env : GitEnv) (fromNum : Nat) :
    (formatRevertFromLines fs env fromNum).filter
        (fun l => startsWith "  INCREMENT ".data l) =
      (descRange fromNum (revertLowerBound fs)).map
        (fun n => "  INCREMENT ".data ++ pad4 n ++ ": ".data ++ revertTitleOf fs n) ∧
    (descRange fromNum (revertLowerBound fs)).Pairwise (· > ·) ∧
    (revertLowerBound fs ≤ fromNum →
      (descRange fromNum (revertLowerBound fs)).head? = some fromNum ∧
      (descRange fromNum (revertLowerBound fs)).getLast? =
        some (revertLowerBound fs)) ∧
    (∀ f, currentTodo fs = some f →
      (parseIncrement f.content (stemOf f.name)).number ≠ 0 →
      revertLowerBound fs = (parseIncrement f.content (stemOf f.name)).number) := by
  refine ⟨?_, descRange_pairwise _ _, fun h => descRange_head_last h, ?_⟩
  · have hhead : ∀ a b, (revertFromHeaderLines a b).filter
        (fun l => startsWith "  INCREMENT ".data l) = [] := by
      intro a b
      rw [revertFromHeaderLines,
        filter_cons_false _ (by decide),
        filter_cons_false _ (not_sw3 _ _ _ (by decide)),
        filter_cons_false _ (by decide),
        filter_cons_false _ (by decide),
        filter_cons_false _ (by decide),
        filter_cons_false _ (by decide),
        filter_cons_false _ (not_sw4 _ _ _ _ (by decide)),
        filter_cons_false _ (by decide),
        filter_cons_false _ (by decide),
        filter_cons_false _ (by decide),
        filter_cons_false _ (by decide),
        List.filter_nil]
    have hfoot : ∀ a b, (revertFromFooterLines a b).filter
        (fun l => startsWith "  INCREMENT ".data l) = [] := by
      intro a b
      rw [revertFromFooterLines,
        filter_cons_false _ (by decide),
        filter_cons_false _ (by decide),
        filter_cons_false _ (not_sw4 _ _ _ _ (by decide)),
        filter_cons_false _ (by decide),
        filter_cons_false _ (by decide),
        filter_cons_false _ (by decide),
        filter_cons_false _ (by decide),
        filter_cons_false _ (not_sw4 _ _ _ _ (by decide)),
        filter_cons_false _ (by decide),
        filter_cons_false _ (by decide),
        filter_cons_false _ (by decide),
        filter_cons_false _ (by decide),
        filter_cons_false _ (not_sw4 _ _ _ _ (by decide)),
        filter_cons_false _ (by decide),
        List.filter_nil]
    have hmid : ∀ L : List Nat, (L.flatMap (incRevertBlock fs env)).filter
          (fun l => startsWith "  INCREMENT ".data l) =
        L.map (fun n => "  INCREMENT ".data ++ pad4 n ++ ": ".data ++
          revertTitleOf fs n) := by
      intro L
      induction L with
      | nil => rfl
      | cons n ns ih =>
        rw [List.flatMap_cons, List.filter_append, incRevertBlock_filter, ih,
          List.map_cons]
        rfl
    rw [formatRevertFromLines, List.filter_append, List.filter_append,
      hhead, hfoot, hmid, List.nil_append, List.append_nil]
  · intro f hct hne
    simp only [revertLowerBound, hct]
    rw [if_neg hne]

/-- Tracker state with a Todo increment numbered 0000 and a Done
increment numbered 0002. -/
def fsC9z : TrackerFS :=
  { requirements := [{ name := "increment_0000_todo_a.md".data, content := [] },
                     { name := "increment_0002_done_b.md".data, content := [] }],
    principles := [] }

/-- C9 counterexample: with a Todo increment numbered 0000 present, the
claim requires the lower bound to be that Todo increment's number (0),
but the code treats 0 as the no-Todo sentinel and uses the highest Done
increment (2) instead. -/
theorem revert_from_zero_todo_counterexample :
    currentTodo fsC9z = some { name := "increment_0000_todo_a.md".data, content := [] } ∧
    (parseIncrement ([] : Str) (stemOf "increment_0000_todo_a.md".data)).number = 0 ∧
    revertLowerBound fsC9z = 2 ∧
    revertLowerBound fsC9z ≠
      (parseIncrement ([] : Str) (stemOf "increment_0000_todo_a.md".data)).number := by
  refine ⟨by decide, by decide, by decide, by decide⟩

/-- Tracker state of the spec's worked example: Todo at 0003, Done at
0001 and 0002. -/
def fsC9w : TrackerFS :=
  { requirements := [{ name := "increment_0003_todo_c.md".data, content := [] },
                     { name := "increment_0001_done_a.md".data, content := [] },
                     { name := "increment_0002_done_b.md".data, content := [] }],
    principles := [] }

/-- A git environment whose invocations all succeed with empty output. -/
def envC9 : GitEnv := { run := fun _ => some [] }

/-- Witness for `revert_from_enumerates`: the spec example — Todo at
0003, Done at 0001/0002, revert from 5 — enumerates exactly 5, 4, 3. -/
theorem revert_from_enumerates_witness :
    revertLowerBound fsC9w = 3 ∧
    descRange 5 (revertLowerBound fsC9w) = [5, 4, 3] ∧
    (formatRevertFromLines fsC9w envC9 5).filter
        (fun l => startsWith "  INCREMENT ".data l) =
      (descRange 5 (revertLowerBound fsC9w)).map
        (fun n => "  INCREMENT ".data ++ pad4 n ++ ": ".data ++ revertTitleOf fsC9w n) ∧
    (descRange 5 (revertLowerBound fsC9w)).Pairwise (· > ·) ∧
    (descRange 5 (revertLowerBound fsC9w)).head? = some 5 ∧
    (descRange 5 (revertLowerBound fsC9w)).getLast? = some (revertLowerBound fsC9w) ∧
    revertLowerBound fsC9w =
      (parseIncrement ([] : Str) (stemOf "increment_0003_todo_c.md".data)).number :=
  have h := revert_from_enumerates fsC9w envC9 5
  ⟨by decide, by decide, h.1, h.2.1,
   (h.2.2.1 (by decide)).1, (h.2.2.1 (by decide)).2,
   h.2.2.2 { name := "increment_0003_todo_c.md".data, content := [] }
     (by decide) (by decide)⟩


/-! ### C10: flexible description from a bold Acceptance-Criteria body -/

theorem dropWhile_idem (p : Char → Bool) (l : Str) :
    (l.dropWhile p).dropWhile p = l.dropWhile p := by
  induction l with
  | nil => rfl
  | cons c cs ih =>
    cases h : p c with
    | true => simp [List.dropWhile_cons, h, ih]
    | false => simp [List.dropWhile_cons, h]

theorem dropWhile_head_false {p : Char → Bool} {l : Str} {c : Char} {cs : Str}
    (h : l.dropWhile p = c :: cs) : p c = false := by
  induction l with
  | nil => simp at h
  | cons a as ih =>
    rw [List.dropWhile_cons] at h
    cases hp : p a with
    | true =>
      rw [hp] at h
      simp at h
      exact ih h
    | false =>
      rw [hp] at h
      simp at h
      rw [← h.1]
      exact hp

theorem rstripWS_idem (l : Str) : rstripWS (rstripWS l) = rstripWS l := by
  simp only [rstripWS, List.reverse_reverse]
  rw [dropWhile_idem]

theorem lstrip_rstrip_lstrip (l : Str) :
    lstripWS (rstripWS (lstripWS l)) = rstripWS (lstripWS l) := by
  cases h : lstripWS l with
  | nil => rfl
  | cons c cs =>
    have hc : isWS c = false := dropWhile_head_false h
    rw [rstripWS, List.reverse_cons, List.dropWhile_append]
    cases hd : (cs.reverse.dropWhile isWS).isEmpty with
    | true =>
      rw [if_pos rfl, show List.dropWhile isWS [c] = [c] by
        rw [List.dropWhile_cons, if_neg (by simp [hc])]]
      simp [lstripWS, List.dropWhile_cons, hc]
    | false =>
      rw [if_neg (by simp), List.reverse_append]
      simp only [List.reverse_cons, List.reverse_nil, List.nil_append,
        List.singleton_append]
      rw [lstripWS, List.dropWhile_cons, if_neg (by simp [hc])]

theorem stripWS_idem (l : Str) : stripWS (stripWS l) = stripWS l := by
  show rstripWS (lstripWS (rstripWS (lstripWS l))) = rstripWS (lstripWS l)
  rw [lstrip_rstrip_lstrip, rstripWS_idem]

theorem sectionAfter_none_of_not_contains (lit : Str) :
    ∀ {s : Str}, containsSub lit s = false → sectionAfter lit s = none := by
  intro s
  induction s with
  | nil => intro h; rfl
  | cons c cs ih =>
    intro h
    rw [containsSub] at h
    simp only [Bool.or_eq_false_iff] at h
    rw [sectionAfter, matchSectionAt, if_neg (by simp [h.1])]
    exact ih h.2

theorem startsWith_cons_head {p x : Char} {ps xs : Str}
    (h : startsWith (p :: ps) (x :: xs) = true) : p = x := by
  simp only [startsWith, Bool.and_eq_true, decide_eq_true_eq] at h
  exact h.1

theorem sw_nl_cons_false {p : Char} (ps : Str) {x : Char} (z : Str) (h : p ≠ x) :
    startsWith ('\n' :: p :: ps) ('\n' :: x :: z) = false := by
  simp [startsWith, h]

theorem boldMarker_head_nl (label : Str) (x : Char) (xs : Str)
    (h : matchBoldMarkerAt label (x :: xs) = true) : x = '\n' := by
  rw [matchBoldMarkerAt] at h
  by_cases hs : startsWith ('\n' :: '*' :: '*' :: label) (x :: xs) = true
  · exact (startsWith_cons_head hs).symm
  · rw [if_neg hs] at h
    exact absurd h (by simp)

theorem hrMarker_head_nl (x : Char) (xs : Str)
    (h : matchHrMarkerAt (x :: xs) = true) : x = '\n' := by
  rw [matchHrMarkerAt] at h
  by_cases hs : startsWith "\n---".data (x :: xs) = true
  · exact (@startsWith_cons_head '\n' x "---".data xs hs).symm
  · rw [if_neg hs] at h
    exact absurd h (by simp)

theorem boldMarker_nl_cons_false (label : Str) {x : Char} (z : Str) (h : x ≠ '*') :
    matchBoldMarkerAt label ('\n' :: x :: z) = false := by
  rw [matchBoldMarkerAt,
    if_neg (by simp [sw_nl_cons_false ('*' :: label) z (Ne.symm h)])]

theorem dash3_append_false {mid : Str} (l : Str)
    (hd : startsWith "---".data mid = false) :
    startsWith "---".data (mid ++ '\n' :: l) = false := by
  rw [show ("---".data : Str) = '-' :: '-' :: '-' :: [] from rfl] at hd ⊢
  cases mid with
  | nil => simp [startsWith]
  | cons a as =>
    cases as with
    | nil => simp [startsWith]
    | cons b bs =>
      cases bs with
      | nil => simp [startsWith]
      | cons d ds =>
        simp only [startsWith, List.cons_append] at hd ⊢
        exact hd

theorem hrMarker_false_mid {mid : Str} (l : Str)
    (hd : startsWith "---".data mid = false) :
    matchHrMarkerAt ('\n' :: (mid ++ '\n' :: l)) = false := by
  have hg : startsWith "\n---".data ('\n' :: (mid ++ '\n' :: l)) = false := by
    rw [show ("\n---".data : Str) = '\n' :: "---".data from rfl]
    simp [startsWith, dash3_append_false l hd]
  rw [matchHrMarkerAt, if_neg (by simp [hg])]

theorem takeWhile_ne_nl_append {l : Str} (h : l.contains '\n' = false) (W : Str) :
    (l ++ '\n' :: W).takeWhile (fun ch => ch ≠ '\n') = l := by
  induction l with
  | nil => simp [List.takeWhile_cons]
  | cons c cs ih =>
    simp only [List.contains_cons, Bool.or_eq_false_iff] at h
    have hc : c ≠ '\n' := by
      intro he
      rw [he] at h
      simp at h
    rw [List.cons_append, List.takeWhile_cons, if_pos (by simp [hc]), ih h.2]

theorem findMarkerPos_append_nl (m : Str → Bool)
    (hnl : ∀ x xs, m (x :: xs) = true → x = '\n') :
    ∀ (mid : Str), mid.contains '\n' = false → ∀ tl : Str,
      findMarkerPos m (mid ++ tl) = (findMarkerPos m tl).map (· + mid.length) := by
  intro mid
  induction mid with
  | nil =>
    intro _ tl
    cases hf : findMarkerPos m tl with
    | none => simp [hf]
    | some p => simp [hf]
  | cons c cs ih =>
    intro hc tl
    simp only [List.contains_cons, Bool.or_eq_false_iff] at hc
    have hcn : c ≠ '\n' := by
      intro he
      rw [he] at hc
      simp at hc
    have hm : m (c :: (cs ++ tl)) = false := by
      cases hb : m (c :: (cs ++ tl)) with
      | false => rfl
      | true => exact absurd (hnl _ _ hb) hcn
    rw [List.cons_append]
    simp only [findMarkerPos]
    rw [if_neg (by simp [hm]), ih hc.2 tl]
    cases hf : findMarkerPos m tl with
    | none => simp
    | some p =>
      simp
      omega

theorem findMarkerPos_lower (m : Str → Bool)
    (hnl : ∀ x xs, m (x :: xs) = true → x = '\n')
    {mid tl : Str} (hmnl : mid.contains '\n' = false)
    (h0 : m ('\n' :: (mid ++ tl)) = false) :
    ∀ p, findMarkerPos m ('\n' :: (mid ++ tl)) = some p → mid.length + 1 ≤ p := by
  intro p hp
  simp only [findMarkerPos] at hp
  rw [if_neg (by simp [h0]), findMarkerPos_append_nl m hnl mid hmnl tl] at hp
  cases hf : findMarkerPos m tl with
  | none =>
    rw [hf] at hp
    simp at hp
  | some q =>
    rw [hf] at hp
    simp at hp
    omega

theorem foldl_min_of_ge (s : Str) (acc : Nat) :
    ∀ L : List (Str → Bool),
      (∀ m ∈ L, ∀ p, findMarkerPos m s = some p → acc ≤ p) →
      L.foldl (fun a m =>
        match findMarkerPos m s with
        | some p => if p < a then p else a
        | none => a) acc = acc := by
  intro L
  induction L with
  | nil => intro _; rfl
  | cons m L ih =>
    intro h
    simp only [List.foldl_cons]
    have hstep : (match findMarkerPos m s with
        | some p => if p < acc then p else acc
        | none => acc) = acc := by
      cases hf : findMarkerPos m s with
      | none => rfl
      | some p =>
        have hle := h m (by simp) p hf
        simp [Nat.not_lt.mpr hle]
    rw [hstep]
    exact ih (fun m h1 p hp => h m (List.mem_cons_of_mem _ h1) p hp)


theorem headingAt_title (c : Char) (t' : Str) (hcw : isWS c = false)
    (htnl : (c :: t').contains '\n' = false) (X : Str) :
    matchHeadingAt 6 ('#' :: ' ' :: (c :: (t' ++ '\n' :: X))) =
      some (c :: t', '\n' :: X) := by
  have hwY : (c :: (t' ++ '\n' :: X)).takeWhile isWS = [] := by
    rw [List.takeWhile_cons, if_neg (by simp [hcw])]
  have hw : (' ' :: (c :: (t' ++ '\n' :: X))).takeWhile isWS = [' '] := by
    rw [List.takeWhile_cons, if_pos (by decide), hwY]
  have hg : (c :: (t' ++ '\n' :: X)).takeWhile (fun ch => ch ≠ '\n') = c :: t' := by
    show ((c :: t') ++ '\n' :: X).takeWhile (fun ch => ch ≠ '\n') = c :: t'
    exact takeWhile_ne_nl_append htnl X
  have hdrop : (c :: (t' ++ '\n' :: X)).drop (c :: t').length = '\n' :: X := by
    show ((c :: t') ++ '\n' :: X).drop (c :: t').length = '\n' :: X
    exact List.drop_left _ _
  simp only [matchHeadingAt]
  rw [show ('#' :: ' ' :: (c :: (t' ++ '\n' :: X))).takeWhile
      (fun ch => ch = '#') = ['#'] from rfl]
  rw [if_neg (by decide)]
  rw [show ('#' :: ' ' :: (c :: (t' ++ '\n' :: X))).drop (['#'] : Str).length =
      ' ' :: (c :: (t' ++ '\n' :: X)) from rfl]
  rw [hw]
  rw [if_neg (by decide)]
  rw [show (' ' :: (c :: (t' ++ '\n' :: X))).drop ([' '] : Str).length =
      c :: (t' ++ '\n' :: X) from rfl]
  show some ((c :: (t' ++ '\n' :: X)).takeWhile (fun ch => ch ≠ '\n'),
      (c :: (t' ++ '\n' :: X)).drop
        ((c :: (t' ++ '\n' :: X)).takeWhile (fun ch => ch ≠ '\n')).length) =
    some (c :: t', '\n' :: X)
  rw [hg, hdrop]


theorem flexDescription_shape (c : Char) (t' mid rest : Str)
    (hcw : isWS c = false) (htnl : (c :: t').contains '\n' = false)
    (hmne : (stripWS mid).isEmpty = false) (hmnl : mid.contains '\n' = false)
    (hmstar : mid.contains '*' = false) (hmhash : mid.contains '#' = false)
    (hmdash : startsWith "---".data mid = false) :
    flexDescription ("# ".data ++ ((c :: t') ++ ('\n' :: (mid ++
      ("\n**Acceptance Criteria:**\n".data ++ rest))))) = stripWS mid := by
  cases mid with
  | nil => exact absurd hmne (by decide)
  | cons m1 ms =>
    have hm1star : m1 ≠ '*' := by
      intro he
      rw [he] at hmstar
      simp at hmstar
    have hm1hash : m1 ≠ '#' := by
      intro he
      rw [he] at hmhash
      simp at hmhash
    have hf1 : matchBoldMarkerAt "Acceptance Criteria".data
        ('\n' :: ((m1 :: ms) ++ ("\n**Acceptance Criteria:**\n".data ++ rest))) =
          false :=
      boldMarker_nl_cons_false "Acceptance Criteria".data
        (ms ++ ("\n**Acceptance Criteria:**\n".data ++ rest)) hm1star
    have hf2 : startsWith "\n## Acceptance Criteria".data
        ('\n' :: ((m1 :: ms) ++ ("\n**Acceptance Criteria:**\n".data ++ rest))) =
          false :=
      sw_nl_cons_false "# Acceptance Criteria".data
        (ms ++ ("\n**Acceptance Criteria:**\n".data ++ rest)) (Ne.symm hm1hash)
    have hf3 : matchBoldMarkerAt "Related Principles".data
        ('\n' :: ((m1 :: ms) ++ ("\n**Acceptance Criteria:**\n".data ++ rest))) =
          false :=
      boldMarker_nl_cons_false "Related Principles".data
        (ms ++ ("\n**Acceptance Criteria:**\n".data ++ rest)) hm1star
    have hf4 : startsWith "\n## Related Principles".data
        ('\n' :: ((m1 :: ms) ++ ("\n**Acceptance Criteria:**\n".data ++ rest))) =
          false :=
      sw_nl_cons_false "# Related Principles".data
        (ms ++ ("\n**Acceptance Criteria:**\n".data ++ rest)) (Ne.symm hm1hash)
    have hf5 : matchBoldMarkerAt "Current Inventory".data
        ('\n' :: ((m1 :: ms) ++ ("\n**Acceptance Criteria:**\n".data ++ rest))) =
          false :=
      boldMarker_nl_cons_false "Current Inventory".data
        (ms ++ ("\n**Acceptance Criteria:**\n".data ++ rest)) hm1star
    have hf6 : matchBoldMarkerAt "Screenshot Assets".data
        ('\n' :: ((m1 :: ms) ++ ("\n**Acceptance Criteria:**\n".data ++ rest))) =
          false :=
      boldMarker_nl_cons_false "Screenshot Assets".data
        (ms ++ ("\n**Acceptance Criteria:**\n".data ++ rest)) hm1star
    have hf7 : matchBoldMarkerAt "Platform Reference".data
        ('\n' :: ((m1 :: ms) ++ ("\n**Acceptance Criteria:**\n".data ++ rest))) =
          false :=
      boldMarker_nl_cons_false "Platform Reference".data
        (ms ++ ("\n**Acceptance Criteria:**\n".data ++ rest)) hm1star
    have hf8 : matchHrMarkerAt
        ('\n' :: ((m1 :: ms) ++ ("\n**Acceptance Criteria:**\n".data ++ rest))) =
          false :=
      hrMarker_false_mid ("**Acceptance Criteria:**\n".data ++ rest) hmdash
    have hm0tail : findMarkerPos (matchBoldMarkerAt "Acceptance Criteria".data)
        ("\n**Acceptance Criteria:**\n".data ++ rest) = some 0 := rfl
    have hm0 : findMarkerPos (matchBoldMarkerAt "Acceptance Criteria".data)
        ('\n' :: ((m1 :: ms) ++ ("\n**Acceptance Criteria:**\n".data ++ rest))) =
          some ((m1 :: ms).length + 1) := by
      show (if matchBoldMarkerAt "Acceptance Criteria".data
          ('\n' :: ((m1 :: ms) ++ ("\n**Acceptance Criteria:**\n".data ++ rest))) =
            true then some 0
        else (findMarkerPos (matchBoldMarkerAt "Acceptance Criteria".data)
          ((m1 :: ms) ++ ("\n**Acceptance Criteria:**\n".data ++ rest))).map
            (· + 1)) = some ((m1 :: ms).length + 1)
      rw [if_neg (by rw [hf1]; exact Bool.false_ne_true),
        findMarkerPos_append_nl _ (boldMarker_head_nl _) _ hmnl _, hm0tail]
      show some ((0 + (m1 :: ms).length) + 1) = some ((m1 :: ms).length + 1)
      rw [Nat.zero_add]
    have hlt : (m1 :: ms).length + 1 <
        ('\n' :: ((m1 :: ms) ++
          ("\n**Acceptance Criteria:**\n".data ++ rest))).length := by
      have h26 : ("\n**Acceptance Criteria:**\n".data : Str).length = 26 := rfl
      simp only [List.length_cons, List.length_append, h26]
      omega
    have hlow : ∀ m ∈ [fun s => startsWith "\n## Acceptance Criteria".data s,
        matchBoldMarkerAt "Related Principles".data,
        fun s => startsWith "\n## Related Principles".data s,
        matchBoldMarkerAt "Current Inventory".data,
        matchBoldMarkerAt "Screenshot Assets".data,
        matchBoldMarkerAt "Platform Reference".data,
        matchHrMarkerAt],
        ∀ p, findMarkerPos m ('\n' :: ((m1 :: ms) ++
          ("\n**Acceptance Criteria:**\n".data ++ rest))) = some p →
          (m1 :: ms).length + 1 ≤ p := by
      intro m hm p hp
      simp only [List.mem_cons, List.not_mem_nil, or_false] at hm
      rcases hm with rfl | rfl | rfl | rfl | rfl | rfl | rfl
      · exact findMarkerPos_lower _
          (fun x xs h =>
            (@startsWith_cons_head '\n' x "## Acceptance Criteria".data xs h).symm)
          hmnl hf2 p hp
      · exact findMarkerPos_lower _ (boldMarker_head_nl _) hmnl hf3 p hp
      · exact findMarkerPos_lower _
          (fun x xs h =>
            (@startsWith_cons_head '\n' x "## Related Principles".data xs h).symm)
          hmnl hf4 p hp
      · exact findMarkerPos_lower _ (boldMarker_head_nl _) hmnl hf5 p hp
      · exact findMarkerPos_lower _ (boldMarker_head_nl _) hmnl hf6 p hp
      · exact findMarkerPos_lower _ (boldMarker_head_nl _) hmnl hf7 p hp
      · exact findMarkerPos_lower _ hrMarker_head_nl hmnl hf8 p hp
    have hpeel : ∀ (a : Nat) (m : Str → Bool) (L : List (Str → Bool)),
        List.foldl (fun acc mm =>
            match findMarkerPos mm ('\n' :: ((m1 :: ms) ++
                ("\n**Acceptance Criteria:**\n".data ++ rest))) with
            | some p => if p < acc then p else acc
            | none => acc) a (m :: L) =
          List.foldl (fun acc mm =>
            match findMarkerPos mm ('\n' :: ((m1 :: ms) ++
                ("\n**Acceptance Criteria:**\n".data ++ rest))) with
            | some p => if p < acc then p else acc
            | none => acc)
            (match findMarkerPos m ('\n' :: ((m1 :: ms) ++
                ("\n**Acceptance Criteria:**\n".data ++ rest))) with
             | some p => if p < a then p else a
             | none => a) L :=
      fun a m L => List.foldl_cons _ _
    have hacc : (match findMarkerPos (matchBoldMarkerAt "Acceptance Criteria".data)
        ('\n' :: ((m1 :: ms) ++ ("\n**Acceptance Criteria:**\n".data ++ rest))) with
        | some p => if p < ('\n' :: ((m1 :: ms) ++
            ("\n**Acceptance Criteria:**\n".data ++ rest))).length then p
          else ('\n' :: ((m1 :: ms) ++
            ("\n**Acceptance Criteria:**\n".data ++ rest))).length
        | none => ('\n' :: ((m1 :: ms) ++
            ("\n**Acceptance Criteria:**\n".data ++ rest))).length) =
          (m1 :: ms).length + 1 := by
      rw [hm0]
      show (if (m1 :: ms).length + 1 < ('\n' :: ((m1 :: ms) ++
          ("\n**Acceptance Criteria:**\n".data ++ rest))).length
        then (m1 :: ms).length + 1
        else ('\n' :: ((m1 :: ms) ++
          ("\n**Acceptance Criteria:**\n".data ++ rest))).length) =
          (m1 :: ms).length + 1
      rw [if_pos hlt]
    have hEM : earliestMarkerPos ('\n' :: ((m1 :: ms) ++
        ("\n**Acceptance Criteria:**\n".data ++ rest))) = (m1 :: ms).length + 1 := by
      rw [earliestMarkerPos, sectionMarkerMatchers, hpeel, hacc]
      exact foldl_min_of_ge _ _ _ hlow
    have hheads : matchHeadingAt 6 ("# ".data ++ ((c :: t') ++ ('\n' :: ((m1 :: ms) ++
        ("\n**Acceptance Criteria:**\n".data ++ rest))))) =
        some (c :: t', '\n' :: ((m1 :: ms) ++
          ("\n**Acceptance Criteria:**\n".data ++ rest))) :=
      headingAt_title c t' hcw htnl _
    have hsh : searchHeading 6 ("# ".data ++ ((c :: t') ++ ('\n' :: ((m1 :: ms) ++
        ("\n**Acceptance Criteria:**\n".data ++ rest))))) =
        some (c :: t', '\n' :: ((m1 :: ms) ++
          ("\n**Acceptance Criteria:**\n".data ++ rest))) := by
      rw [searchHeading, searchLines, hheads]
    rw [flexDescription, hsh]
    show stripWS (('\n' :: ((m1 :: ms) ++ ("\n**Acceptance Criteria:**\n".data ++
        rest))).take (earliestMarkerPos ('\n' :: ((m1 :: ms) ++
        ("\n**Acceptance Criteria:**\n".data ++ rest))))) = stripWS (m1 :: ms)
    rw [hEM, show ('\n' :: ((m1 :: ms) ++ ("\n**Acceptance Criteria:**\n".data ++
        rest))).take ((m1 :: ms).length + 1) = '\n' :: (m1 :: ms) from (by
      rw [List.take_succ_cons, List.take_left])]
    show rstripWS (lstripWS ('\n' :: (m1 :: ms))) = stripWS (m1 :: ms)
    rw [show lstripWS ('\n' :: (m1 :: ms)) = lstripWS (m1 :: ms) from (by
      rw [lstripWS, lstripWS, List.dropWhile_cons, if_pos (by decide)])]
    rfl


/-- C10: for a body whose only labelled section is a bold
`**Acceptance Criteria:**` section — a top-level `# ` title heading on the
first line and a plain non-empty paragraph (no newline, no `*`, no `#`, not
opening with `---`) between the heading and the bold label — the flexible
description pass yields exactly that paragraph (stripped), so the
parse-completeness flag is true. -/
theorem flexible_bold_ac_complete (c : Char) (t' mid rest stem : Str)
    (hcw : isWS c = false) (htnl : (c :: t').contains '\n' = false)
    (hmne : (stripWS mid).isEmpty = false) (hmnl : mid.contains '\n' = false)
    (hmstar : mid.contains '*' = false) (hmhash : mid.contains '#' = false)
    (hmdash : startsWith "---".data mid = false)
    (hnodesc : containsSub "## Description".data ("# ".data ++ ((c :: t') ++
      ('\n' :: (mid ++ ("\n**Acceptance Criteria:**\n".data ++ rest))))) = false) :
    (parseIncrement ("# ".data ++ ((c :: t') ++ ('\n' :: (mid ++
        ("\n**Acceptance Criteria:**\n".data ++ rest))))) stem).description =
      stripWS mid ∧
    isParseComplete (parseIncrement ("# ".data ++ ((c :: t') ++ ('\n' :: (mid ++
        ("\n**Acceptance Criteria:**\n".data ++ rest))))) stem) = true := by
  have hsec := sectionAfter_none_of_not_contains "## Description".data hnodesc
  have hflex := flexDescription_shape c t' mid rest hcw htnl hmne hmnl hmstar
    hmhash hmdash
  have hdesc : (parseIncrement ("# ".data ++ ((c :: t') ++ ('\n' :: (mid ++
      ("\n**Acceptance Criteria:**\n".data ++ rest))))) stem).description =
      stripWS mid := by
    rw [parseIncrement, hsec, hflex]
    rfl
  refine ⟨hdesc, ?_⟩
  rw [isParseComplete, hdesc, stripWS_idem, hmne]
  rfl


/-- Witness for `flexible_bold_ac_complete`: the body
`# Title\nA plain paragraph.\n**Acceptance Criteria:**\n- one\n` parses
with description `A plain paragraph.` and a true completeness flag. -/
theorem flexible_bold_ac_complete_witness :
    (parseIncrement ("# ".data ++ (('T' :: "itle".data) ++ ('\n' ::
        ("A plain paragraph.".data ++ ("\n**Acceptance Criteria:**\n".data ++
          "- one\n".data))))) "increment_0001_todo_x".data).description =
      "A plain paragraph.".data ∧
    isParseComplete (parseIncrement ("# ".data ++ (('T' :: "itle".data) ++ ('\n' ::
        ("A plain paragraph.".data ++ ("\n**Acceptance Criteria:**\n".data ++
          "- one\n".data))))) "increment_0001_todo_x".data) = true :=
  have h := flexible_bold_ac_complete 'T' "itle".data "A plain paragraph.".data
    "- one\n".data "increment_0001_todo_x".data (by decide) (by decide) (by decide)
    (by decide) (by decide) (by decide) (by decide) (by decide)
  ⟨h.1.trans (by decide), h.2⟩

end Selfdev
